import Mathlib

/-!
Verification of the htmladapt reconciliation engine.

This file gives a shallow embedding, in Lean 4, of the core logic of the
htmladapt repository: the element matcher (`src/htmladapt/algorithms/matcher.py`),
the extraction/merge engine (`src/htmladapt/core/extractor_merger.py`), the
configuration validation (`src/htmladapt/core/config.py`), the LLM conflict
resolution step, and the id generator (whose module `id_generation.py` is not
present in the repository snapshot; it is modelled from the specification).

Modelling conventions:
* A BeautifulSoup tree is the inductive `HNode`: an element with a tag name, an
  ordered attribute list with unique keys (a Python dict), and ordered children;
  or a text run (`NavigableString`).  A parsed document is the list of its
  top-level nodes (the children of the `[document]` root, which is not itself a
  tag and is never returned by `find_all`).
* Python floats are modelled as exact rationals `ℚ`.
* The content hash (`xxhash`/`sha256` over `f"{name}:{attrs}|{text}"`) is
  modelled collision-free: the hash of an element is the triple
  `(name, attrs, text)` that the source feeds into the hash function, and hash
  equality is equality of those triples.
* `rapidfuzz.fuzz.ratio` is the normalized InDel similarity,
  `100 * (1 - dist/(len1+len2))` where `dist` is the Levenshtein distance with
  insertions and deletions only; it is implemented here directly.
* `id(element)`, the CPython object identity used as the content-cache key, is
  a `Nat` handle carried next to each element fed to the matcher (`HElem`).
* A bs4 `Tag` is always truthy (`Tag.__bool__` is not length-based in the
  versions targeted); `element.get("id")` is falsy when the attribute is absent
  or the empty string, which the embedding checks explicitly.
-/

/-! ### Python string primitives -/

/-- Python `str.strip()`: drop leading and trailing whitespace. -/
def pyStrip (s : String) : String :=
  String.mk (((s.data.dropWhile Char.isWhitespace).reverse.dropWhile Char.isWhitespace).reverse)

/-- Split a character list on whitespace runs, dropping empty pieces
(Python `str.split()` with no argument). -/
def wordsAux : List Char → List Char → List (List Char)
  | [], acc => if acc = [] then [] else [acc.reverse]
  | c :: cs, acc =>
    if c.isWhitespace then
      (if acc = [] then wordsAux cs [] else acc.reverse :: wordsAux cs [])
    else wordsAux cs (c :: acc)

/-- Python `s.split()`. -/
def pySplit (s : String) : List String := (wordsAux s.data []).map String.mk

/-- Python `' '.join(s.split())`: collapse all whitespace runs to single spaces. -/
def normalizeWS (s : String) : String := String.intercalate " " (pySplit s)

/-- Python `s.lower()` (ASCII case folding, which is all the source relies on). -/
def pyLower (s : String) : String := String.mk (s.data.map Char.toLower)

/-- Is `sub` a contiguous sublist starting at some position of the second list? -/
def infixAux (sub : List Char) : List Char → Bool
  | [] => sub.isEmpty
  | c :: cs => List.isPrefixOf sub (c :: cs) || infixAux sub cs

/-- Python `sub in s` on strings: contiguous substring containment
(the empty string is a substring of everything). -/
def pySubstr (sub s : String) : Bool := infixAux sub.data s.data

/-! ### The document tree -/

/-- A mutable HTML tree node: a tag with attributes and ordered children, or a
text run.  Attribute keys are unique (Python dict). -/
inductive HNode where
  | elem (name : String) (attrs : List (String × String)) (children : List HNode)
  | text (s : String)
deriving Repr

/-- Tag name; `""` for a text run (never consulted there). -/
def HNode.name : HNode → String
  | .elem n _ _ => n
  | .text _ => ""

/-- Attribute dictionary; `[]` for a text run. -/
def HNode.attrs : HNode → List (String × String)
  | .elem _ a _ => a
  | .text _ => []

/-- Ordered children; `[]` for a text run. -/
def HNode.children : HNode → List HNode
  | .elem _ _ cs => cs
  | .text _ => []

/-- Is this node a `NavigableString` (has a callable `strip`)? -/
def HNode.isText : HNode → Bool
  | .text _ => true
  | .elem _ _ _ => false

/-- Python `element.get(k)`: the attribute value, or `None`. -/
def getAttr (n : HNode) (k : String) : Option String :=
  (n.attrs.find? (fun kv => kv.1 = k)).map (·.2)

/-- Python truthiness of `element.get(k)`: present and non-empty. -/
def truthyAttr (v : Option String) : Bool :=
  match v with
  | some s => s ≠ ""
  | none => false

/-- Python `element[k] = v` on a dict: replace in place if the key exists,
append otherwise. -/
def setAttr (a : List (String × String)) (k v : String) : List (String × String) :=
  if (a.find? (fun kv => kv.1 = k)).isSome then
    a.map (fun kv => if kv.1 = k then (k, v) else kv)
  else a ++ [(k, v)]

/-- Python `del element[k]`. -/
def delAttr (a : List (String × String)) (k : String) : List (String × String) :=
  a.filter (fun kv => kv.1 ≠ k)

/-! ### Text extraction (`get_text`, `_extract_text_content`) -/

mutual
/-- All descendant text runs of a node, in document order. -/
def collectTextRuns : HNode → List String
  | .text s => [s]
  | .elem _ _ cs => collectTextRunsList cs

def collectTextRunsList : List HNode → List String
  | [] => []
  | c :: cs => collectTextRuns c ++ collectTextRunsList cs
end

/-- bs4 `element.get_text(separator=" ", strip=True)`: every descendant string,
stripped, empty pieces dropped, joined by the separator. -/
def bsGetText (n : HNode) : String :=
  String.intercalate " " (((collectTextRuns n).map pyStrip).filter (fun s => s ≠ ""))

/-- `ElementMatcher._get_element_text`: `get_text(separator=" ", strip=True)`
followed by `' '.join(text.split())`. -/
def getElementText (n : HNode) : String := normalizeWS (bsGetText n)

/-- One direct child's contribution inside `_extract_text_content`:
a `NavigableString` is stripped, a tag contributes its
`get_text(separator=" ", strip=True)`. -/
def directPiece : HNode → String
  | .text s => pyStrip s
  | e => bsGetText e

/-- `HTMLExtractMergeTool._extract_text_content`: direct text runs stripped and
child tags flattened `get_text`-style, non-empty pieces joined by spaces. -/
def extractTextContent (n : HNode) : String :=
  match n with
  | .elem _ _ cs => String.intercalate " " ((cs.map directPiece).filter (fun s => s ≠ ""))
  | .text s => pyStrip s

/-- `HTMLExtractMergeTool._is_text_containing_element`: not one of the excluded
tags, and some direct child text run has non-whitespace content. -/
def isTextContainingElement : HNode → Bool
  | .text _ => false
  | .elem nm _ cs =>
    if nm ∈ ["script", "style", "meta", "link", "head", "title"] then false
    else cs.any (fun c => match c with
      | .text s => pyStrip s ≠ ""
      | .elem _ _ _ => false)

/-- `_is_translatable_element` just forwards to `_is_text_containing_element`. -/
def isTranslatableElement (n : HNode) : Bool := isTextContainingElement n

/-! ### Document traversal (`find_all`, `find`) -/

mutual
/-- `element.find_all()` seen from one node: the node itself (if a tag) followed
by all tag descendants, in document (pre-)order. -/
def findAllElems : HNode → List HNode
  | .text _ => []
  | .elem nm a cs => .elem nm a cs :: findAllElemsList cs

def findAllElemsList : List HNode → List HNode
  | [] => []
  | c :: cs => findAllElems c ++ findAllElemsList cs
end

/-- `soup.find_all()`: all tags of the document, in document order (the
`[document]` root is not included; a document is its top-level node list). -/
def findAll (doc : List HNode) : List HNode := findAllElemsList doc

mutual
/-- Replace the first node (in document order) satisfying `p` by `f` applied to
it; the Bool reports whether a node was found. -/
def updFirst (p : HNode → Bool) (f : HNode → HNode) : HNode → HNode × Bool
  | .text s => (.text s, false)
  | .elem nm a cs =>
    if p (.elem nm a cs) then (f (.elem nm a cs), true)
    else
      let r := updFirstList p f cs
      (.elem nm a r.1, r.2)

def updFirstList (p : HNode → Bool) (f : HNode → HNode) : List HNode → List HNode × Bool
  | [] => ([], false)
  | c :: cs =>
    let r := updFirst p f c
    if r.2 then (r.1 :: cs, true)
    else
      let rs := updFirstList p f cs
      (c :: rs.1, rs.2)
end

/-- Navigate a document by a path of child indices (`nodeAt doc [i, j]` is the
`j`-th child of the `i`-th top-level node). -/
def nodeAt (ns : List HNode) : List Nat → Option HNode
  | [] => none
  | [i] => ns[i]?
  | i :: p =>
    match ns[i]? with
    | some (.elem _ _ cs) => nodeAt cs p
    | _ => none


/-! ### Id generator

`htmladapt/algorithms/id_generation.py` is imported by the engine and exercised
by `tests/test_id_generation.py`, but the module itself is not in the
repository snapshot; the definitions below are modelled from the
specification. -/

/-- Base-36 digit characters: `0-9` then lowercase `a-z`. -/
def digitChar36 (d : Nat) : Char :=
  Char.ofNat (if d < 10 then 48 + d else 87 + d)

/-- Little-endian base-36 digits of `n`, with `fuel ≥ n` (structural fuel makes
the definition kernel-reducible). -/
def toBase36Aux : Nat → Nat → List Nat
  | 0, _ => []
  | _, 0 => []
  | fuel + 1, n + 1 => ((n + 1) % 36) :: toBase36Aux fuel ((n + 1) / 36)

/-- Modelled from the spec: base-36 rendering of the counter
(`0 → "0"`, `35 → "z"`, `36 → "10"`). -/
def toBase36 (n : Nat) : String :=
  if n = 0 then "0" else String.mk (((toBase36Aux n n).reverse).map digitChar36)

/-- Value of a little-endian base-36 digit list. -/
def ofBase36 : List Nat → Nat
  | [] => 0
  | d :: ds => d + 36 * ofBase36 ds

/-- Modelled from the spec: the Id Generator's state.  `pfx` is the configured
id prefix, `counter` the monotonically increasing counter, `used_ids` every id
seen (generated or registered), and `generated` the ids this generator actually
minted (the spec requires minted ids to be distinguishable from pre-existing
ones). -/
structure IDGenerator where
  pfx : String
  counter : Nat
  used_ids : List String
  generated : List String
deriving Repr

/-- A fresh generator (`IDGenerator(prefix)`). -/
def IDGenerator.init (p : String) : IDGenerator := ⟨p, 0, [], []⟩

/-- Modelled from the spec: the candidate id
`<prefix><hint?>_<base36 counter>` (the underscore belongs to the hint part). -/
def mkCand (g : IDGenerator) (hint : Option String) : String :=
  g.pfx ++ (match hint with | some h => h ++ "_" | none => "") ++ toBase36 g.counter

/-- Modelled from the spec: re-check the candidate against the used-id set and
advance the counter again on a collision.  The fuel `used_ids.length + 1`
always suffices (proved below), so the `none` case is unreachable. -/
def genLoop (hint : Option String) : Nat → IDGenerator → Option (String × IDGenerator)
  | 0, _ => none
  | fuel + 1, g =>
    let cand := mkCand g hint
    if cand ∈ g.used_ids then genLoop hint fuel { g with counter := g.counter + 1 }
    else some (cand, { g with
      counter := g.counter + 1,
      used_ids := cand :: g.used_ids,
      generated := cand :: g.generated })

/-- Modelled from the spec: `generate_id(hint)` returns a new id distinct from
every previously generated or registered id and records it. -/
def generate_id (g : IDGenerator) (hint : Option String) : String × IDGenerator :=
  match genLoop hint (g.used_ids.length + 1) g with
  | some r => r
  | none => ("", g)

/-- Modelled from the spec: `register_existing_id` records an
externally-observed id as used; no-op if already present. -/
def register_existing_id (g : IDGenerator) (s : String) : IDGenerator :=
  if s ∈ g.used_ids then g else { g with used_ids := s :: g.used_ids }

/-- Modelled from the spec: `is_generated_id` is true iff the id matches the
minted-id shape (recognized prefix) and was actually produced by this
generator. -/
def is_generated_id (g : IDGenerator) (s : String) : Bool :=
  List.isPrefixOf g.pfx.data s.data && s ∈ g.generated

/-- One call in a generator usage trace. -/
inductive GenOp where
  | gen (hint : Option String)
  | reg (s : String)

/-- Run a trace of calls; returns the final generator, the ids returned by the
`generate_id` calls (in order), and the ids actually recorded as existing by
`register_existing_id` calls (a registration that is a no-op because the id is
already known records nothing). -/
def runOps (g : IDGenerator) : List GenOp → IDGenerator × List String × List String
  | [] => (g, [], [])
  | .gen h :: ops =>
    let r := generate_id g h
    let rest := runOps r.2 ops
    (rest.1, r.1 :: rest.2.1, rest.2.2)
  | .reg s :: ops =>
    let recorded := if s ∈ g.used_ids then ([] : List String) else [s]
    let rest := runOps (register_existing_id g s) ops
    (rest.1, rest.2.1, recorded ++ rest.2.2)

/-! ### Element matcher (`algorithms/matcher.py`) -/

/-- An element handed to the matcher: the node plus its CPython object identity
(`id(element)`), the key of the per-matcher content-hash cache. -/
structure HElem where
  handle : Nat
  node : HNode
deriving Repr

/-- The pre-image triple fed to the content hash
(`f"{element.name}:{element.attrs}|{content}"`); hashing is modelled
collision-free, so hash equality is equality of these triples. -/
def hashKeyOf (n : HNode) : String × List (String × String) × String :=
  (n.name, n.attrs, getElementText n)

/-- The matcher's mutable state: the `_content_cache` dict keyed by object
identity. -/
structure MState where
  cache : List (Nat × (String × List (String × String) × String))
deriving Repr

/-- The empty cache (a fresh `ElementMatcher`). -/
def MState.empty : MState := ⟨[]⟩

/-- `ElementMatcher._get_content_hash`: return the cached hash for this object
if present, else compute and cache it. -/
def getContentHash (m : MState) (e : HElem) :
    (String × List (String × String) × String) × MState :=
  match m.cache.lookup e.handle with
  | some v => (v, m)
  | none => (hashKeyOf e.node, ⟨(e.handle, hashKeyOf e.node) :: m.cache⟩)

/-- `ElementMatcher._id_similarity`: 1.0 iff both ids are present, non-empty
(Python truthiness) and equal. -/
def idSimilarity (n1 n2 : HNode) : ℚ :=
  match getAttr n1 "id", getAttr n2 "id" with
  | some a, some b => if a ≠ "" ∧ b ≠ "" ∧ a = b then 1 else 0
  | _, _ => 0

/-- Levenshtein distance restricted to insertions and deletions (the InDel
distance underlying `rapidfuzz.fuzz.ratio`). -/
def indelDist : List Char → List Char → Nat
  | [], ys => ys.length
  | x :: xs, [] => (x :: xs).length
  | x :: xs, y :: ys =>
    if x = y then indelDist xs ys
    else 1 + min (indelDist (x :: xs) ys) (indelDist xs (y :: ys))
termination_by xs ys => xs.length + ys.length

/-- `rapidfuzz.fuzz.ratio`: the normalized InDel similarity on 0–100. -/
def fuzzRatio (s t : String) : ℚ :=
  let l : Nat := s.data.length + t.data.length
  if l = 0 then 100 else 100 * (((l : ℚ) - indelDist s.data t.data) / l)

/-- `ElementMatcher._text_similarity` (rapidfuzz available): 0 when either
flattened text is empty, else `fuzz.ratio / 100`. -/
def textSimilarity (n1 n2 : HNode) : ℚ :=
  let t1 := getElementText n1
  let t2 := getElementText n2
  if t1 = "" ∨ t2 = "" then 0
  else fuzzRatio t1 t2 / 100

/-- Python `dict.__eq__`: same keys with equal values (order-insensitive). -/
def dictEq (a b : List (String × String)) : Bool :=
  a.all (fun kv => (b.find? (fun kv2 => kv2.1 = kv.1)).map (·.2) = some kv.2) &&
  b.all (fun kv => (a.find? (fun kv2 => kv2.1 = kv.1)).map (·.2) = some kv.2)

/-- `ElementMatcher._structure_similarity`: 0.0 on tag-name mismatch, else the
Jaccard overlap of attribute keys excluding keys prefixed `id`, with equal
dicts and the no-attributes case scoring 1.0. -/
def structureSimilarity (n1 n2 : HNode) : ℚ :=
  if n1.name ≠ n2.name then 0
  else
    let a1 := n1.attrs.filter (fun kv => !(List.isPrefixOf "id".data kv.1.data))
    let a2 := n2.attrs.filter (fun kv => !(List.isPrefixOf "id".data kv.1.data))
    if dictEq a1 a2 then 1
    else
      let ks1 := (a1.map Prod.fst).toFinset
      let ks2 := (a2.map Prod.fst).toFinset
      if ks1 ∪ ks2 = ∅ then 1
      else ((ks1 ∩ ks2).card : ℚ) / ((ks1 ∪ ks2).card : ℚ)

/-- `ElementMatcher._calculate_similarity`, threading the content-hash cache:
perfect id match 1.0; content-hash match 0.95; else the weighted composite. -/
def calculateSimilarity (m : MState) (e1 e2 : HElem) : ℚ × MState :=
  let idScore := idSimilarity e1.node e2.node
  if idScore = 1 then (1, m)
  else
    let r1 := getContentHash m e1
    let r2 := getContentHash r1.2 e2
    let hashScore : ℚ := if r1.1 = r2.1 then 1 else 0
    if hashScore = 1 then (0.95, r2.2)
    else
      (idScore * 0.4 + hashScore * 0.3 +
        textSimilarity e1.node e2.node * 0.2 +
        structureSimilarity e1.node e2.node * 0.1, r2.2)

/-- A match record: `(edited_element, original_element, confidence_score)`. -/
abbrev MRec := Option HElem × Option HElem × ℚ

/-- The inner loop of `match_elements`: scan the enumerated baseline list,
skipping claimed indices, keeping the best (match, index) with its score;
`best_score` starts at 0.0 and is replaced only on a strict improvement that
also reaches the threshold. -/
def bestLoop (thr : ℚ) (e : HElem) (used : List Nat) :
    List (Nat × HElem) → MState → Option (HElem × Nat) → ℚ →
    (Option (HElem × Nat) × ℚ) × MState
  | [], m, best, bs => ((best, bs), m)
  | (idx, oe) :: rest, m, best, bs =>
    if idx ∈ used then bestLoop thr e used rest m best bs
    else
      let r := calculateSimilarity m e oe
      if bs < r.1 ∧ thr ≤ r.1 then bestLoop thr e used rest r.2 (some (oe, idx)) r.1
      else bestLoop thr e used rest r.2 best bs

/-- The outer loop of `match_elements` over the edited elements, threading the
set of claimed baseline indices and the cache. -/
def matchLoop (thr : ℚ) (indexed : List (Nat × HElem)) :
    List HElem → List Nat → MState → List MRec × List Nat × MState
  | [], used, m => ([], used, m)
  | e :: es, used, m =>
    let br := bestLoop thr e used indexed m none 0
    match br.1.1 with
    | some (oe, idx) =>
      let rest := matchLoop thr indexed es (idx :: used) br.2
      ((some e, some oe, br.1.2) :: rest.1, rest.2)
    | none =>
      let rest := matchLoop thr indexed es used br.2
      ((some e, none, 0) :: rest.1, rest.2)

/-- `ElementMatcher.match_elements`: greedy matching of edited elements against
unclaimed baseline elements, then every unclaimed baseline element is appended
as `(None, original, 0.0)` in baseline order. -/
def match_elements (thr : ℚ) (m : MState) (edited originals : List HElem) :
    List MRec × MState :=
  let indexed := originals.enum
  let r := matchLoop thr indexed edited [] m
  (r.1 ++ (indexed.filter (fun p => p.1 ∉ r.2.1)).map (fun p => ((none : Option HElem), some p.2, (0 : ℚ))),
   r.2.2)

/-! ### Reconciliation engine (`core/extractor_merger.py`) -/

/-- `_register_existing_ids`: register the `id` of every element that has the
attribute. -/
def registerExistingIds (g : IDGenerator) (doc : List HNode) : IDGenerator :=
  ((findAll doc).filterMap (fun e => getAttr e "id")).foldl register_existing_id g

mutual
/-- `_create_superset` seen from one node: mint an id for every text-bearing
element whose `id` is absent or empty (Python falsy), in document order. -/
def createSupersetNode (g : IDGenerator) : HNode → HNode × IDGenerator
  | .text s => (.text s, g)
  | .elem nm a cs =>
    let step :=
      if isTextContainingElement (.elem nm a cs) ∧ ¬ truthyAttr (getAttr (.elem nm a cs) "id") then
        let r := generate_id g (some nm)
        (setAttr a "id" r.1, r.2)
      else (a, g)
    let rest := createSupersetList step.2 cs
    ((.elem nm step.1 rest.1), rest.2)

def createSupersetList (g : IDGenerator) : List HNode → List HNode × IDGenerator
  | [] => ([], g)
  | c :: cs =>
    let r := createSupersetNode g c
    let rest := createSupersetList r.2 cs
    (r.1 :: rest.1, rest.2)
end

/-- The flat subset element built for one text-bearing element of the Full
Copy: same tag name, the `id` copied when truthy, the flattened text as sole
content when non-empty. -/
def mkFlat (e : HNode) : HNode :=
  let withId : List (String × String) :=
    match getAttr e "id" with
    | some s => if s ≠ "" then [("id", s)] else []
    | none => []
  let t := extractTextContent e
  .elem e.name withId (if t ≠ "" then [.text t] else [])

/-- `_create_subset`: a fresh `<html><body>` document whose body collects one
flat element per translatable element of the Full Copy, in document order. -/
def createSubset (full : List HNode) : List HNode :=
  [.elem "html" []
    [.elem "body" []
      (((findAll full).filter isTranslatableElement).foldl
        (fun acc e => acc ++ [mkFlat e]) [])]]

/-- `HTMLExtractMergeTool.extract`: register existing ids, mint ids on the full
copy, derive the subset. -/
def extract (g : IDGenerator) (doc : List HNode) :
    (List HNode × List HNode) × IDGenerator :=
  let g1 := registerExistingIds g doc
  let full := createSupersetList g1 doc
  ((full.1, createSubset full.1), full.2)

mutual
/-- `_cleanup_generated_ids` on one node: delete every `id` attribute the
generator recognizes as minted. -/
def cleanupNode (g : IDGenerator) : HNode → HNode
  | .text s => .text s
  | .elem nm a cs =>
    let a' := match getAttr (.elem nm a cs) "id" with
      | some s => if is_generated_id g s then delAttr a "id" else a
      | none => a
    .elem nm a' (cleanupList g cs)

def cleanupList (g : IDGenerator) : List HNode → List HNode
  | [] => []
  | c :: cs => cleanupNode g c :: cleanupList g cs
end

/-- An engine-level match record (the matcher's records, with the object
handles no longer relevant). -/
abbrev ERec := Option HNode × Option HNode × ℚ

/-- The id under which `_apply_changes_to_superset` indexes a record: the
baseline element's truthy id, else the edited element's truthy id. -/
def recLookupId (r : ERec) : Option String :=
  match r with
  | (e, o, _) =>
    match o.bind (fun oe => getAttr oe "id") with
    | some s => if s ≠ "" then some s else fallbackId e
    | none => fallbackId e
where
  fallbackId (e : Option HNode) : Option String :=
    match e.bind (fun ee => getAttr ee "id") with
    | some s => if s ≠ "" then some s else none
    | none => none

/-- The `match_by_id` dict: later records overwrite earlier ones
(built head-first so that `lookup` sees the latest insertion). -/
def buildMatchById (recs : List ERec) : List (String × ERec) :=
  recs.foldl (fun d r =>
    match recLookupId r with
    | some k => (k, r) :: d
    | none => d) []

/-- The child-pruning decision inside `_apply_changes_to_superset`: a direct
child tag carrying a truthy id is dropped when its record has no edited
counterpart, or when its text is unchanged and its non-empty lowercased text no
longer occurs in the lowercased new parent text. -/
def keepChild (matchById : List (String × ERec)) (newText : String) (c : HNode) : Bool :=
  match c with
  | .text _ => true
  | .elem nm a cs =>
    match getAttr (.elem nm a cs) "id" with
    | some cid =>
      if cid = "" then true
      else
        let childMatch := matchById.lookup cid
        let childText := extractTextContent (.elem nm a cs)
        let childTextLower := if childText ≠ "" then pyLower childText else ""
        let editedChild := childMatch.bind (fun r => r.1)
        match editedChild with
        | none => false
        | some ec =>
          let changed := extractTextContent ec ≠ childText
          if ¬ changed ∧ childTextLower ≠ "" ∧ ¬ pySubstr childTextLower (pyLower newText)
          then false else true
    | none => true

/-- The splice applied to the located Full Copy element: prune stale id-bearing
child tags, extract every direct text run, then insert the new text first (or
as sole content). -/
def spliceText (matchById : List (String × ERec)) (newText : String) (el : HNode) : HNode :=
  match el with
  | .text s => .text s
  | .elem nm a cs =>
    let cs1 := cs.filter (keepChild matchById newText)
    let cs2 := cs1.filter (fun c => ¬ c.isText)
    .elem nm a (if cs2.isEmpty then [.text newText] else .text newText :: cs2)

/-- One iteration of the splice loop of `_apply_changes_to_superset`: a record
with both sides present and confidence at or above the threshold updates the
first Full Copy element carrying the baseline element's truthy id, provided the
new flattened text is non-empty. -/
def applyOne (thr : ℚ) (matchById : List (String × ERec)) (doc : List HNode)
    (r : ERec) : List HNode :=
  match r with
  | (some e, some o, conf) =>
    if thr ≤ conf then
      match getAttr o "id" with
      | some eid =>
        if eid ≠ "" then
          let newText := extractTextContent e
          if newText ≠ "" then
            (updFirstList (fun el => getAttr el "id" = some eid)
              (spliceText matchById newText) doc).1
          else doc
        else doc
      | none => doc
    else doc
  | _ => doc

/-- `_apply_changes_to_superset`: build the id index, then splice every
qualifying record into the superset in order. -/
def applyChangesToSuperset (thr : ℚ) (recs : List ERec) (doc : List HNode) :
    List HNode :=
  let matchById := buildMatchById recs
  recs.foldl (applyOne thr matchById) doc

/-! ### LLM conflict resolution (`_apply_llm_resolution`, `llm/reconciler.py`) -/

/-- The outcome of one `resolve_conflict` call: the call may raise, or return a
response dict with an optional best-match index and a confidence. -/
inductive ResolverOutcome where
  | err
  | ok (best : Option Int) (conf : ℚ)

/-- The external reconciler as seen by the engine: the `is_available` probe
(which itself may raise) and the response to each `resolve_conflict` call,
as a function of the texts passed in. -/
structure Reconciler where
  availCheck : Except Unit Bool
  resolve : String → List String → ResolverOutcome

/-- The loop of `_apply_llm_resolution` over the unmatched edited records:
an exception, a missing index, a confidence below the threshold, or an
out-of-range index leaves the record untouched; otherwise the indexed
candidate is popped from the remaining pool and the record is promoted with
the resolver's confidence.  (The source also prunes a parallel master list of
unmatched originals that is never read again; that write has no observable
effect and is not represented.) -/
def llmLoop (rc : Reconciler) (thr : ℚ) :
    List (Nat × HNode) → List (Nat × HNode) → List ERec → List ERec
  | [], _, recs => recs
  | (mi, e) :: rest, remaining, recs =>
    match rc.resolve (extractTextContent e) (remaining.map (fun p => extractTextContent p.2)) with
    | .err => llmLoop rc thr rest remaining recs
    | .ok best conf =>
      if best = none ∨ conf < thr then llmLoop rc thr rest remaining recs
      else
        match best with
        | none => llmLoop rc thr rest remaining recs
        | some bi =>
          if ¬ (0 ≤ bi ∧ bi < (remaining.length : Int)) then llmLoop rc thr rest remaining recs
          else
            match remaining[bi.toNat]? with
            | none => llmLoop rc thr rest remaining recs
            | some (_, oe) =>
              llmLoop rc thr rest (remaining.eraseIdx bi.toNat)
                (recs.set mi (some e, some oe, conf))

/-- `_apply_llm_resolution`: gated on the config flag, the reconciler being
set, and the availability probe (an exception there degrades to no
escalation); records are partitioned into edited-only and baseline-only, and
the loop only runs when both sides are non-empty. -/
def applyLLMResolution (llm_use : Bool) (rc : Option Reconciler) (thr : ℚ)
    (recs : List ERec) : List ERec :=
  if ¬ llm_use then recs
  else
    match rc with
    | none => recs
    | some r =>
      match r.availCheck with
      | .error _ => recs
      | .ok false => recs
      | .ok true =>
        let unmatchedEdits := recs.enum.filterMap (fun p =>
          match p.2 with
          | (some e, none, _) => some (p.1, e)
          | _ => none)
        let unmatchedOriginals := recs.enum.filterMap (fun p =>
          match p.2 with
          | (none, some o, _) => some (p.1, o)
          | _ => none)
        if unmatchedEdits.isEmpty ∨ unmatchedOriginals.isEmpty then recs
        else llmLoop r thr unmatchedEdits unmatchedOriginals recs

/-! ### Configuration (`core/config.py`) -/

/-- `ProcessingConfig` (the fields `__post_init__` validates or defaults). -/
structure ProcessingConfig where
  id_prefix : String
  similarity_threshold : ℚ
  enable_llm_resolution : Bool
  llm_model : String
  max_context_tokens : Int
  performance_profile : String
  parser_preference : List String
  max_depth_limit : Int
  memory_limit_mb : Int
deriving Repr

/-- `ProcessingConfig(...)` followed by `__post_init__`: defaults the parser
preference and validates the threshold, the token budget and the memory limit,
raising `ValueError` (modelled as `Except.error`) otherwise. -/
def mkProcessingConfig ( id_prefix : String) (similarity_threshold : ℚ)
    (enable_llm_resolution : Bool) (llm_model : String) (max_context_tokens : Int)
    (performance_profile : String) (parser_preference : Option (List String))
    (max_depth_limit : Int) (memory_limit_mb : Int) :
    Except String ProcessingConfig :=
  let pp := parser_preference.getD ["lxml", "html5lib", "html.parser"]
  if ¬ (0 ≤ similarity_threshold ∧ similarity_threshold ≤ 1) then
    .error "similarity_threshold must be between 0.0 and 1.0"
  else if max_context_tokens < 100 then
    .error "max_context_tokens must be at least 100"
  else if memory_limit_mb < 1 then
    .error "memory_limit_mb must be at least 1"
  else
    .ok ⟨ id_prefix, similarity_threshold, enable_llm_resolution, llm_model,
      max_context_tokens, performance_profile, pp, max_depth_limit, memory_limit_mb⟩

/-! ### Specification-side definitions

The definitions below restate, in the claims' own words, the behaviour the
implementation definitions above are compared against. -/

/-- The similarity a pair of elements scores in isolation (the cascade of
`_calculate_similarity` without the content-hash cache). -/
def calculateSimilarityPure (n1 n2 : HNode) : ℚ :=
  let idScore := idSimilarity n1 n2
  if idScore = 1 then 1
  else
    let hashScore : ℚ := if hashKeyOf n1 = hashKeyOf n2 then 1 else 0
    if hashScore = 1 then 0.95
    else
      idScore * 0.4 + hashScore * 0.3 +
        textSimilarity n1 n2 * 0.2 + structureSimilarity n1 n2 * 0.1

/-- Claim C2's selection rule: among the given (unclaimed) candidates, select
the highest-scoring one whose score is at or above the threshold, ties broken
by earliest baseline index; report its score, or no selection and 0.0. -/
def specSelectBest (thr : ℚ) (e : HElem) (cands : List (Nat × HElem)) :
    Option (HElem × Nat) × ℚ :=
  let qualified :=
    (cands.map (fun p => (p, calculateSimilarityPure e.node p.2.node))).filter
      (fun q => thr ≤ q.2)
  match qualified.foldl (fun acc q =>
    match acc with
    | none => some q
    | some a => if a.2 < q.2 then some q else acc) none with
  | some q => (some (q.1.2, q.1.1), q.2)
  | none => ((none : Option (HElem × Nat)), (0 : ℚ))

/-- Claim C5's structure score, exactly as stated: the Jaccard overlap of the
attribute keys excluding keys named or prefixed `id`, and 1.0 whenever both
elements have zero comparable attributes (no tag-name condition). -/
def claimC5StructureScore (n1 n2 : HNode) : ℚ :=
  let ks1 := ((n1.attrs.filter (fun kv => !(List.isPrefixOf "id".data kv.1.data))).map Prod.fst).toFinset
  let ks2 := ((n2.attrs.filter (fun kv => !(List.isPrefixOf "id".data kv.1.data))).map Prod.fst).toFinset
  if ks1 ∪ ks2 = ∅ then 1
  else ((ks1 ∩ ks2).card : ℚ) / ((ks1 ∪ ks2).card : ℚ)

/-- The amended C5 structure score: as the claim states it, except that two
elements with different tag names score 0.0. -/
def amendedC5StructureScore (n1 n2 : HNode) : ℚ :=
  if n1.name ≠ n2.name then 0 else claimC5StructureScore n1 n2

/-- Claim C4's description of the subset: a fresh minimal `html > body`
document whose body holds, in document order, one flat element per
text-bearing element of the Full Copy — same tag name, the same `id` when the
source element has one, and the flattened text as content. -/
def specC4Subset (full : List HNode) : List HNode :=
  [.elem "html" []
    [.elem "body" []
      (((findAll full).filter (fun e => isTextContainingElement e)).map (fun e =>
        .elem e.name
          (match getAttr e "id" with
           | some s => [("id", s)]
           | none => [])
          (let t := extractTextContent e
           if t ≠ "" then [.text t] else [])))]]

/-- The amended C1 pruning rule, as the claim states it with "carries an id"
read as a non-empty id: such a direct child is removed when its id's match
record has no edited counterpart, or when its text is unchanged from baseline
and its lowercased baseline text is not a substring of the lowercased new
parent text. -/
def specC1KeepChild (matchById : List (String × ERec)) (newText : String)
    (c : HNode) : Bool :=
  if c.isText then true
  else
    match getAttr c "id" with
    | some cid =>
      if cid = "" then true
      else
        let childText := extractTextContent c
        match (matchById.lookup cid).bind (fun r => r.1) with
        | none => false
        | some ec =>
          if extractTextContent ec = childText ∧
              ¬ pySubstr (pyLower childText) (pyLower newText)
          then false else true
    | none => true

/-- Claim C1's splice: prune per `specC1KeepChild`, remove all direct text
runs, then insert the new text as first child when other children remain,
otherwise set it as the sole text content. -/
def specC1Splice (matchById : List (String × ERec)) (newText : String)
    (el : HNode) : HNode :=
  match el with
  | .text s => .text s
  | .elem nm a cs =>
    let kept := (cs.filter (specC1KeepChild matchById newText)).filter (fun c => ¬ c.isText)
    .elem nm a (if kept.isEmpty then [.text newText] else .text newText :: kept)

/-- Claim C1's per-record step: a matched record with confidence at or above
the threshold and both slots present updates the Full Copy element located by
the baseline element's id, when the edited flattened text is non-empty. -/
def specC1ApplyOne (thr : ℚ) (matchById : List (String × ERec))
    (doc : List HNode) (r : ERec) : List HNode :=
  match r with
  | (some e, some o, conf) =>
    if thr ≤ conf then
      match getAttr o "id" with
      | some eid =>
        if eid ≠ "" then
          let newText := extractTextContent e
          if newText ≠ "" then
            (updFirstList (fun el => getAttr el "id" = some eid)
              (specC1Splice matchById newText) doc).1
          else doc
        else doc
      | none => doc
    else doc
  | _ => doc

/-- Claim C1's whole splice pass over the match records. -/
def specC1ApplyChanges (thr : ℚ) (recs : List ERec) (doc : List HNode) :
    List HNode :=
  recs.foldl (specC1ApplyOne thr (buildMatchById recs)) doc

/-- Claim C7's per-record rule: a response with an index within the current
candidate range and confidence at or above the threshold promotes the record
and removes the claimed candidate from the pool; an exception, a missing
index, an out-of-range index, or a low confidence leaves the record
unmatched. -/
def specC7Loop (rc : Reconciler) (thr : ℚ) :
    List (Nat × HNode) → List (Nat × HNode) → List ERec → List ERec
  | [], _, recs => recs
  | (mi, e) :: rest, remaining, recs =>
    match rc.resolve (extractTextContent e) (remaining.map (fun p => extractTextContent p.2)) with
    | .err => specC7Loop rc thr rest remaining recs
    | .ok none _ => specC7Loop rc thr rest remaining recs
    | .ok (some bi) conf =>
      if 0 ≤ bi ∧ bi < (remaining.length : Int) ∧ thr ≤ conf then
        match remaining[bi.toNat]? with
        | none => specC7Loop rc thr rest remaining recs
        | some (_, oe) =>
          specC7Loop rc thr rest (remaining.eraseIdx bi.toNat)
            (recs.set mi (some e, some oe, conf))
      else specC7Loop rc thr rest remaining recs

/-- Claim C7's escalation step: when the reconciler is configured, enabled and
reports itself available, process the edited-only records in order against the
pool of baseline-only records; unavailability or a probe failure never aborts
the merge. -/
def specC7Apply (llm_use : Bool) (rc : Option Reconciler) (thr : ℚ)
    (recs : List ERec) : List ERec :=
  if ¬ llm_use then recs
  else
    match rc with
    | none => recs
    | some r =>
      match r.availCheck with
      | .error _ => recs
      | .ok false => recs
      | .ok true =>
        specC7Loop r thr
          (recs.enum.filterMap (fun p =>
            match p.2 with
            | (some e, none, _) => some (p.1, e)
            | _ => none))
          (recs.enum.filterMap (fun p =>
            match p.2 with
            | (none, some o, _) => some (p.1, o)
            | _ => none))
          recs

/-! ### Decidable equality and proof-level predicates -/

mutual
def HNode.decEq : (a b : HNode) → Decidable (a = b)
  | .text s, .text t =>
    if h : s = t then isTrue (by rw [h])
    else isFalse (fun hh => h (by cases hh; rfl))
  | .text _, .elem _ _ _ => isFalse (fun h => HNode.noConfusion h)
  | .elem _ _ _, .text _ => isFalse (fun h => HNode.noConfusion h)
  | .elem n1 a1 c1, .elem n2 a2 c2 =>
    if h1 : n1 = n2 then
      if h2 : a1 = a2 then
        match HNode.decEqList c1 c2 with
        | isTrue h3 => isTrue (by rw [h1, h2, h3])
        | isFalse h3 => isFalse (fun hh => h3 (by cases hh; rfl))
      else isFalse (fun hh => h2 (by cases hh; rfl))
    else isFalse (fun hh => h1 (by cases hh; rfl))

def HNode.decEqList : (xs ys : List HNode) → Decidable (xs = ys)
  | [], [] => isTrue rfl
  | [], _ :: _ => isFalse (fun h => List.noConfusion h)
  | _ :: _, [] => isFalse (fun h => List.noConfusion h)
  | x :: xs, y :: ys =>
    match HNode.decEq x y, HNode.decEqList xs ys with
    | isTrue h1, isTrue h2 => isTrue (by rw [h1, h2])
    | isFalse h1, _ => isFalse (fun hh => h1 (by cases hh; rfl))
    | _, isFalse h2 => isFalse (fun hh => h2 (by cases hh; rfl))
end

instance : DecidableEq HNode := HNode.decEq

/-- Extension order on content-hash caches: every cached binding is kept. -/
def cacheLE (c c' : List (Nat × (String × List (String × String) × String))) : Prop :=
  ∀ h v, c.lookup h = some v → c'.lookup h = some v

/-- The cache holds no stale bindings for the given elements: anything cached
under an element's object identity is that element's true content hash. -/
def CacheAccurate (m : MState) (es : List HElem) : Prop :=
  ∀ e ∈ es, ∀ v, m.cache.lookup e.handle = some v → v = hashKeyOf e.node

/-- Object identities are consistent: two of the given elements with the same
CPython `id` are the same object. -/
def HandlesConsistent (es : List HElem) : Prop :=
  ∀ e ∈ es, ∀ e' ∈ es, e.handle = e'.handle → e.node = e'.node

instance (m : MState) (es : List HElem) : Decidable (CacheAccurate m es) := by
  unfold CacheAccurate; infer_instance

instance (es : List HElem) : Decidable (HandlesConsistent es) := by
  unfold HandlesConsistent; infer_instance

/-! ## Lemmas and theorems -/

/-! ### Base-36 and id-generator lemmas -/

theorem ofBase36_toBase36Aux : ∀ fuel n, n ≤ fuel → ofBase36 (toBase36Aux fuel n) = n := by
  intro fuel
  induction fuel with
  | zero =>
    intro n hn
    interval_cases n
    simp [toBase36Aux, ofBase36]
  | succ f ih =>
    intro n hn
    match n with
    | 0 => simp [toBase36Aux, ofBase36]
    | k + 1 =>
      have hdiv : (k + 1) / 36 ≤ f := by
        have h1 : (k + 1) / 36 < k + 1 := Nat.div_lt_self (Nat.succ_pos k) (by norm_num)
        omega
      simp only [toBase36Aux, ofBase36, ih _ hdiv]
      omega

theorem toBase36Aux_lt : ∀ fuel n, ∀ d ∈ toBase36Aux fuel n, d < 36 := by
  intro fuel
  induction fuel with
  | zero => intro n d hd; simp [toBase36Aux] at hd
  | succ f ih =>
    intro n d hd
    match n with
    | 0 => simp [toBase36Aux] at hd
    | k + 1 =>
      simp only [toBase36Aux, List.mem_cons] at hd
      rcases hd with h | h
      · subst h; exact Nat.mod_lt _ (by norm_num)
      · exact ih _ _ h

theorem digitChar36_injOn : ∀ a b : Nat, a < 36 → b < 36 →
    digitChar36 a = digitChar36 b → a = b := by
  have key : ∀ x : Fin 36, ∀ y : Fin 36, digitChar36 x.val = digitChar36 y.val → x = y := by decide
  intro a b ha hb h
  have := key ⟨a, ha⟩ ⟨b, hb⟩ h
  exact congrArg Fin.val this

theorem map_digitChar36_inj : ∀ l1 l2 : List Nat, (∀ d ∈ l1, d < 36) → (∀ d ∈ l2, d < 36) →
    l1.map digitChar36 = l2.map digitChar36 → l1 = l2 := by
  intro l1
  induction l1 with
  | nil => intro l2 _ _ h; cases l2 <;> simp_all
  | cons x xs ih =>
    intro l2 h1 h2 h
    cases l2 with
    | nil => simp at h
    | cons y ys =>
      simp only [List.map_cons, List.cons.injEq] at h
      have hx := digitChar36_injOn x y (h1 x (by simp)) (h2 y (by simp)) h.1
      have := ih ys (fun d hd => h1 d (by simp [hd])) (fun d hd => h2 d (by simp [hd])) h.2
      simp [hx, this]

theorem toBase36_injective : ∀ n m : Nat, toBase36 n = toBase36 m → n = m := by
  have mkinj : ∀ l1 l2 : List Char, String.mk l1 = String.mk l2 → l1 = l2 := by
    intro l1 l2 h; cases h; rfl
  have nonzero : ∀ n : Nat, n ≠ 0 → toBase36 n ≠ "0" := by
    intro n hn h
    unfold toBase36 at h
    rw [if_neg hn] at h
    have hdata : (toBase36Aux n n).reverse.map digitChar36 = ['0'] :=
      congrArg String.data h
    have hrev : (toBase36Aux n n).reverse = [0] := by
      apply map_digitChar36_inj
      · intro d hd; exact toBase36Aux_lt n n d (List.mem_reverse.mp hd)
      · intro d hd; simp at hd; omega
      · rw [hdata]; decide
    have haux : toBase36Aux n n = [0] := by
      have h2 := congrArg List.reverse hrev
      simpa using h2
    have := congrArg ofBase36 haux
    rw [ofBase36_toBase36Aux n n le_rfl] at this
    simp [ofBase36] at this
    exact hn this
  intro n m h
  by_cases hn : n = 0 <;> by_cases hm : m = 0
  · omega
  · exfalso; apply nonzero m hm; rw [← h, toBase36, if_pos hn]
  · exfalso; apply nonzero n hn; rw [h, toBase36, if_pos hm]
  · unfold toBase36 at h
    rw [if_neg hn, if_neg hm] at h
    have hdata := mkinj _ _ h
    have := map_digitChar36_inj _ _
      (fun d hd => toBase36Aux_lt n n d (List.mem_reverse.mp hd))
      (fun d hd => toBase36Aux_lt m m d (List.mem_reverse.mp hd)) hdata
    have hrev := congrArg List.reverse this
    simp only [List.reverse_reverse] at hrev
    have := congrArg ofBase36 hrev
    rwa [ofBase36_toBase36Aux n n le_rfl, ofBase36_toBase36Aux m m le_rfl] at this

theorem toBase36_ne_empty : ∀ n : Nat, toBase36 n ≠ "" := by
  intro n h
  unfold toBase36 at h
  by_cases hn : n = 0
  · rw [if_pos hn] at h; exact absurd h (by decide)
  · rw [if_neg hn] at h
    have hd : ((toBase36Aux n n).reverse.map digitChar36) = [] := congrArg String.data h
    match n, hn with
    | k + 1, _ => simp [toBase36Aux] at hd

theorem string_data_inj {s t : String} (h : s.data = t.data) : s = t := by
  cases s
  cases t
  exact congrArg String.mk h

theorem mkCand_counter_inj (g : IDGenerator) (hint : Option String) (c1 c2 : Nat)
    (h : mkCand { g with counter := c1 } hint = mkCand { g with counter := c2 } hint) :
    c1 = c2 := by
  unfold mkCand at h
  have hdata := congrArg String.data h
  simp only [String.data_append, List.append_assoc] at hdata
  have h1 := List.append_cancel_left hdata
  have h2 := List.append_cancel_left h1
  exact toBase36_injective _ _ (string_data_inj h2)

theorem mkCand_ne_empty (g : IDGenerator) (hint : Option String) :
    mkCand g hint ≠ "" := by
  intro h
  have hdata := congrArg String.data h
  unfold mkCand at hdata
  simp only [String.data_append] at hdata
  rcases List.append_eq_nil.mp hdata with ⟨-, h2⟩
  exact toBase36_ne_empty g.counter (string_data_inj h2)

theorem fresh_candidate_exists (g : IDGenerator) (hint : Option String) :
    ∃ i ≤ g.used_ids.length,
      mkCand { g with counter := g.counter + i } hint ∉ g.used_ids := by
  by_contra hcon
  push_neg at hcon
  set n := g.used_ids.length with hn
  set f : Nat → String := fun i => mkCand { g with counter := g.counter + i } hint with hf
  have hinj : Function.Injective f := by
    intro i j hij
    have := mkCand_counter_inj g hint (g.counter + i) (g.counter + j) hij
    omega
  have hnodup : ((List.range (n + 1)).map f).Nodup :=
    (List.nodup_range _).map hinj
  have hsub : ((List.range (n + 1)).map f) ⊆ g.used_ids := by
    intro s hs
    rcases List.mem_map.mp hs with ⟨i, hi, rfl⟩
    exact hcon i (by simpa using Nat.lt_succ_iff.mp (List.mem_range.mp hi))
  have h1 : ((List.range (n + 1)).map f).toFinset.card = n + 1 := by
    rw [List.toFinset_card_of_nodup hnodup]
    simp
  have h2 : ((List.range (n + 1)).map f).toFinset ⊆ g.used_ids.toFinset := by
    intro s hs
    exact List.mem_toFinset.mpr (hsub (List.mem_toFinset.mp hs))
  have h3 := Finset.card_le_card h2
  have h4 := List.toFinset_card_le g.used_ids
  omega

theorem genLoop_success : ∀ (fuel : Nat) (g : IDGenerator) (hint : Option String),
    (∃ i < fuel, mkCand { g with counter := g.counter + i } hint ∉ g.used_ids) →
    ∃ r, genLoop hint fuel g = some r := by
  intro fuel
  induction fuel with
  | zero => intro g hint ⟨i, hi, _⟩; omega
  | succ f ih =>
    intro g hint ⟨i, hi, hfree⟩
    by_cases hc : mkCand g hint ∈ g.used_ids
    · have hi0 : i ≠ 0 := by
        intro h0
        subst h0
        simp only [Nat.add_zero] at hfree
        exact hfree hc
      have := ih { g with counter := g.counter + 1 } hint
        ⟨i - 1, by omega, by
          have : g.counter + 1 + (i - 1) = g.counter + i := by omega
          simpa [this] using hfree⟩
      rcases this with ⟨r, hr⟩
      exact ⟨r, by simp [genLoop, hc, hr]⟩
    · exact ⟨(mkCand g hint, { g with counter := g.counter + 1, used_ids := mkCand g hint :: g.used_ids, generated := mkCand g hint :: g.generated }), by simp [genLoop, hc]⟩

theorem genLoop_sound : ∀ (fuel : Nat) (g : IDGenerator) (hint : Option String) (s : String)
    (g' : IDGenerator), genLoop hint fuel g = some (s, g') →
    s ∉ g.used_ids ∧ g'.used_ids = s :: g.used_ids ∧ g'.generated = s :: g.generated ∧
      g'.pfx = g.pfx ∧ s ≠ "" := by
  intro fuel
  induction fuel with
  | zero => intro g hint s g' h; simp [genLoop] at h
  | succ f ih =>
    intro g hint s g' h
    by_cases hc : mkCand g hint ∈ g.used_ids
    · simp only [genLoop, if_pos hc] at h
      exact ih { g with counter := g.counter + 1 } hint s g' h
    · simp only [genLoop, if_neg hc, Option.some.injEq, Prod.mk.injEq] at h
      obtain ⟨hs, hg'⟩ := h
      subst hs
      subst hg'
      exact ⟨hc, rfl, rfl, rfl, mkCand_ne_empty g hint⟩

theorem generate_id_spec (g : IDGenerator) (hint : Option String) :
    (generate_id g hint).1 ∉ g.used_ids ∧
    (generate_id g hint).2.used_ids = (generate_id g hint).1 :: g.used_ids ∧
    (generate_id g hint).2.generated = (generate_id g hint).1 :: g.generated ∧
    (generate_id g hint).2.pfx = g.pfx ∧
    (generate_id g hint).1 ≠ "" := by
  obtain ⟨i, hi, hfree⟩ := fresh_candidate_exists g hint
  obtain ⟨⟨s, g'⟩, hr⟩ := genLoop_success (g.used_ids.length + 1) g hint ⟨i, by omega, hfree⟩
  have := genLoop_sound _ g hint s g' hr
  simp only [generate_id, hr]
  exact this

theorem runOps_invariant : ∀ (ops : List GenOp) (g : IDGenerator),
    (runOps g ops).2.1.Nodup ∧
    (∀ s ∈ (runOps g ops).2.1, s ∉ g.used_ids) ∧
    (∀ s ∈ (runOps g ops).2.2, s ∉ g.used_ids) ∧
    (∀ s ∈ g.used_ids, s ∈ (runOps g ops).1.used_ids) ∧
    (∀ s ∈ (runOps g ops).2.1, s ∉ (runOps g ops).2.2) := by
  intro ops
  induction ops with
  | nil =>
    intro g
    simp [runOps]
  | cons op rest ih =>
    cases op with
    | gen hint =>
      intro g
      obtain ⟨hfresh, hused, hgen, hpfx, hne⟩ := generate_id_spec g hint
      obtain ⟨ih1, ih2, ih3, ih4, ih5⟩ := ih (generate_id g hint).2
      simp only [runOps, List.nodup_cons, List.mem_cons]
      have hsub : ∀ s, s ∈ g.used_ids → s ∈ (generate_id g hint).2.used_ids := by
        intro s hs; rw [hused]; exact List.mem_cons_of_mem _ hs
      have hself : (generate_id g hint).1 ∈ (generate_id g hint).2.used_ids := by
        rw [hused]; exact List.mem_cons_self _ _
      refine ⟨⟨fun hmem => ih2 _ hmem hself, ih1⟩, ?_, ?_, ?_, ?_⟩
      · rintro s (rfl | hs)
        · exact hfresh
        · intro hg; exact ih2 s hs (hsub s hg)
      · intro s hs hg
        exact ih3 s hs (hsub s hg)
      · intro s hs
        exact ih4 s (hsub s hs)
      · rintro s (rfl | hs)
        · intro hmem; exact ih3 _ hmem hself
        · exact ih5 s hs
    | reg t =>
      intro g
      by_cases hc : t ∈ g.used_ids
      · have hreg : register_existing_id g t = g := by simp [register_existing_id, hc]
        simp only [runOps, if_pos hc, List.nil_append, hreg]
        exact ih g
      · obtain ⟨ih1, ih2, ih3, ih4, ih5⟩ := ih (register_existing_id g t)
        have hreg : (register_existing_id g t).used_ids = t :: g.used_ids := by
          simp [register_existing_id, hc]
        simp only [runOps, if_neg hc, List.singleton_append, List.mem_cons]
        have hsub : ∀ s, s ∈ g.used_ids → s ∈ (register_existing_id g t).used_ids := by
          intro s hs; rw [hreg]; exact List.mem_cons_of_mem _ hs
        have hself : t ∈ (register_existing_id g t).used_ids := by
          rw [hreg]; exact List.mem_cons_self _ _
        refine ⟨ih1, ?_, ?_, ?_, ?_⟩
        · intro s hs hg
          exact ih2 s hs (hsub s hg)
        · rintro s (rfl | hs)
          · exact hc
          · intro hg; exact ih3 s hs (hsub s hg)
        · intro s hs
          exact ih4 s (hsub s hs)
        · intro s hs
          rintro (rfl | hmem)
          · exact ih2 s hs hself
          · exact ih5 s hs hmem

/-- C6: for any interleaving of `generate_id` and `register_existing_id`
calls on one generator instance, the ids returned by `generate_id` are
pairwise distinct and none of them equals an id recorded as existing. -/
theorem c6_generated_ids_unique_and_disjoint (p : String) (ops : List GenOp) :
    (runOps (IDGenerator.init p) ops).2.1.Nodup ∧
    ∀ s ∈ (runOps (IDGenerator.init p) ops).2.1,
      s ∉ (runOps (IDGenerator.init p) ops).2.2 := by
  obtain ⟨h1, _, _, _, h5⟩ := runOps_invariant ops (IDGenerator.init p)
  exact ⟨h1, h5⟩

/-! ### C8: configuration validation -/

/-- C8: constructing a `ProcessingConfig` succeeds exactly when the similarity
threshold lies in `[0, 1]` and the token budget is at least 100 (given a valid
memory limit), and a successful construction stores both values unchanged;
outside those ranges construction raises and produces no instance. -/
theorem c8_config_validation (pfx llm_model profile : String) (llm : Bool)
    (pp : Option (List String)) (depth : Int) (t : ℚ) (k mem : Int)
    (hmem : 1 ≤ mem) :
    (∃ c, mkProcessingConfig pfx t llm llm_model k profile pp depth mem = .ok c ∧
        c.similarity_threshold = t ∧ c.max_context_tokens = k) ↔
      (0 ≤ t ∧ t ≤ 1 ∧ 100 ≤ k) := by
  constructor
  · rintro ⟨c, hc, ht, hk⟩
    unfold mkProcessingConfig at hc
    split_ifs at hc with h1 h2 h3
    exact ⟨h1.1, h1.2, by omega⟩
  · rintro ⟨h0, h1, hk⟩
    have c1 : ¬¬(0 ≤ t ∧ t ≤ 1) := not_not_intro ⟨h0, h1⟩
    have c2 : ¬(k < 100) := by omega
    have c3 : ¬(mem < 1) := by omega
    simp only [mkProcessingConfig, if_neg c1, if_neg c2, if_neg c3]
    exact ⟨_, rfl, rfl, rfl⟩

/-- Witness for C8 at the boundary values: threshold 1.0 and 100 tokens are
accepted and stored unchanged (and threshold 0.0 likewise). -/
theorem c8_config_validation_witness :
    ((∃ c, mkProcessingConfig "auto_" 1 false "gpt-4o-mini" 100 "balanced" none 100 512 = .ok c ∧
        c.similarity_threshold = 1 ∧ c.max_context_tokens = 100) ↔
      ((0 : ℚ) ≤ 1 ∧ (1 : ℚ) ≤ 1 ∧ (100 : Int) ≤ 100)) ∧
    ((∃ c, mkProcessingConfig "auto_" 0 false "gpt-4o-mini" 100 "balanced" none 100 512 = .ok c ∧
        c.similarity_threshold = 0 ∧ c.max_context_tokens = 100) ↔
      ((0 : ℚ) ≤ 0 ∧ (0 : ℚ) ≤ 1 ∧ (100 : Int) ≤ 100)) :=
  ⟨c8_config_validation "auto_" "gpt-4o-mini" "balanced" false none 100 1 100 512 (by decide),
   c8_config_validation "auto_" "gpt-4o-mini" "balanced" false none 100 0 100 512 (by decide)⟩

/-! ### C10: empty edited text leaves the element untouched -/

/-- C10: a matched record whose edited counterpart has an empty flattened text
changes nothing during the splice pass: the whole superset document is
returned unchanged — no text run is removed, no id-bearing child is pruned. -/
theorem c10_empty_edit_is_frame (thr : ℚ) (matchById : List (String × ERec))
    (doc : List HNode) (e o : HNode) (conf : ℚ)
    (hempty : extractTextContent e = "") :
    applyOne thr matchById doc (some e, some o, conf) = doc := by
  rcases hoid : getAttr o "id" with _ | eid <;>
    simp [applyOne, hoid, hempty]

/-- Witness for C10: a concrete matched record whose edited element flattens to
the empty string leaves a superset element (with its text and child) fully
intact. -/
theorem c10_empty_edit_is_frame_witness :
    extractTextContent (.elem "p" [("id", "x")] []) = "" ∧
    applyOne 1 [] [HNode.elem "div" [("id", "x")] [.text "keep me"]]
      (some (.elem "p" [("id", "x")] []), some (.elem "p" [("id", "x")] []), 1) =
      [HNode.elem "div" [("id", "x")] [.text "keep me"]] :=
  ⟨by decide,
   c10_empty_edit_is_frame 1 [] [HNode.elem "div" [("id", "x")] [.text "keep me"]]
     (.elem "p" [("id", "x")] []) (.elem "p" [("id", "x")] []) 1 (by decide)⟩

/-! ### C7: LLM escalation -/

theorem llmLoop_eq_spec (rc : Reconciler) (thr : ℚ) :
    ∀ (edits remaining : List (Nat × HNode)) (recs : List ERec),
    llmLoop rc thr edits remaining recs = specC7Loop rc thr edits remaining recs := by
  intro edits
  induction edits with
  | nil => intro remaining recs; rfl
  | cons p rest ih =>
    intro remaining recs
    obtain ⟨mi, e⟩ := p
    cases hres : rc.resolve (extractTextContent e) (remaining.map (fun q => extractTextContent q.2)) with
    | err =>
      simp only [llmLoop, specC7Loop, hres]
      exact ih _ _
    | ok best conf =>
      cases best with
      | none =>
        simp only [llmLoop, specC7Loop, hres, true_or, if_pos (Or.inl rfl)]
        exact ih _ _
      | some bi =>
        by_cases hconf : conf < thr
        · have hng : ¬(0 ≤ bi ∧ bi < (remaining.length : Int) ∧ thr ≤ conf) := by
            rintro ⟨-, -, h⟩
            exact absurd hconf (not_lt.mpr h)
          simp only [llmLoop, specC7Loop, hres, if_pos (Or.inr hconf), if_neg hng]
          exact ih _ _
        · have hne : ¬((some bi = none) ∨ conf < thr) := by
            rintro (h | h)
            · exact Option.noConfusion h
            · exact hconf h
          by_cases hrange : 0 ≤ bi ∧ bi < (remaining.length : Int)
          · have hcond : 0 ≤ bi ∧ bi < (remaining.length : Int) ∧ thr ≤ conf :=
              ⟨hrange.1, hrange.2, not_lt.mp hconf⟩
            simp only [llmLoop, specC7Loop, hres, if_neg hne, if_neg (not_not_intro hrange),
              if_pos hcond]
            cases hl : remaining[bi.toNat]? with
            | none => exact ih _ _
            | some q =>
              obtain ⟨oi, oe⟩ := q
              exact ih _ _
          · have hng : ¬(0 ≤ bi ∧ bi < (remaining.length : Int) ∧ thr ≤ conf) := by
              rintro ⟨h1, h2, -⟩
              exact hrange ⟨h1, h2⟩
            simp only [llmLoop, specC7Loop, hres, if_neg hne, if_pos hrange, if_neg hng]
            exact ih _ _

theorem specC7Loop_nil_pool (rc : Reconciler) (thr : ℚ) :
    ∀ (edits : List (Nat × HNode)) (recs : List ERec),
    specC7Loop rc thr edits [] recs = recs := by
  intro edits
  induction edits with
  | nil => intro recs; rfl
  | cons p rest ih =>
    intro recs
    obtain ⟨mi, e⟩ := p
    simp only [specC7Loop, List.map_nil]
    cases hres : rc.resolve (extractTextContent e) [] with
    | err => exact ih recs
    | ok best conf =>
      cases best with
      | none => exact ih recs
      | some bi =>
        have hng : ¬(0 ≤ bi ∧ bi < (([] : List (Nat × HNode)).length : Int) ∧ thr ≤ conf) := by
          rintro ⟨h1, h2, -⟩
          simp at h2
          omega
        exact (if_neg hng).trans (ih recs)

/-- C7: the escalation step behaves exactly as claimed — when the reconciler
is enabled, configured and available, each edited-only record is processed in
order; an in-range response with confidence at or above the threshold promotes
the record with the resolver's confidence and removes the claimed baseline
element from the pool for subsequent records; a resolver exception, a missing
or out-of-range index, or a low confidence leaves the record unmatched; and no
resolver failure or unavailability aborts the merge. -/
theorem c7_llm_resolution_matches_spec (llm_use : Bool) (rc : Option Reconciler)
    (thr : ℚ) (recs : List ERec) :
    applyLLMResolution llm_use rc thr recs = specC7Apply llm_use rc thr recs := by
  cases llm_use with
  | false => simp [applyLLMResolution, specC7Apply]
  | true =>
    cases rc with
    | none => simp [applyLLMResolution, specC7Apply]
    | some r =>
      cases hav : r.availCheck with
      | error u => simp [applyLLMResolution, specC7Apply, hav]
      | ok avail =>
        cases avail with
        | false => simp [applyLLMResolution, specC7Apply, hav]
        | true =>
          simp only [applyLLMResolution, specC7Apply, hav, not_true_eq_false, if_false,
            Bool.false_eq_true, not_false_eq_true]
          by_cases hE : (recs.enum.filterMap (fun p =>
              match p.2 with
              | (some e, none, _) => some (p.1, e)
              | _ => none)).isEmpty
          · rw [if_pos (Or.inl hE)]
            rw [List.isEmpty_iff] at hE
            rw [hE]
            simp [specC7Loop]
          · by_cases hO : (recs.enum.filterMap (fun p =>
                match p.2 with
                | (none, some o, _) => some (p.1, o)
                | _ => none)).isEmpty
            · rw [if_pos (Or.inr hO)]
              rw [List.isEmpty_iff] at hO
              rw [hO, specC7Loop_nil_pool]
            · rw [if_neg (by simp [hE, hO])]
              exact llmLoop_eq_spec r thr _ _ _

/-! ### Attribute-dictionary lemmas -/

theorem find?_setAttr (a : List (String × String)) (k v : String) :
    (setAttr a k v).find? (fun kv => kv.1 = k) = some (k, v) := by
  unfold setAttr
  by_cases h : (a.find? (fun kv => kv.1 = k)).isSome
  · rw [if_pos h]
    induction a with
    | nil => simp [List.find?] at h
    | cons kv rest ih =>
      by_cases hk : kv.1 = k
      · simp [List.find?, hk]
      · have hrest : (rest.find? (fun kv => kv.1 = k)).isSome := by
          simpa [List.find?_cons, hk] using h
        simp only [List.map_cons, List.find?_cons]
        rw [if_neg hk]
        simpa [hk] using ih hrest
  · rw [if_neg h]
    induction a with
    | nil => simp [List.find?]
    | cons kv rest ih =>
      by_cases hk : kv.1 = k
      · exfalso
        apply h
        simp [List.find?_cons, hk]
      · have hrest : ¬(rest.find? (fun kv => kv.1 = k)).isSome := by
          intro hr
          apply h
          simp only [List.find?_cons]
          split
          · simp
          · exact hr
        simp only [List.cons_append, List.find?_cons]
        split
        next heq => exact absurd (by simpa using heq) hk
        next => exact ih hrest

theorem getAttr_setAttr (nm : String) (a : List (String × String))
    (cs : List HNode) (k v : String) :
    getAttr (.elem nm (setAttr a k v) cs) k = some v := by
  unfold getAttr HNode.attrs
  rw [find?_setAttr]
  rfl

theorem getAttr_delAttr (nm : String) (a : List (String × String)) (cs : List HNode) :
    getAttr (.elem nm (delAttr a "id") cs) "id" = none := by
  unfold getAttr HNode.attrs delAttr
  rw [Option.map_eq_none']
  rw [List.find?_eq_none]
  intro kv hkv
  have := List.of_mem_filter hkv
  simpa using this

/-! ### Superset construction lemmas -/

theorem supersetList_shape : ∀ (cs : List HNode) (g : IDGenerator),
    List.Forall₂ (fun c c' => ∀ s, c = .text s ↔ c' = .text s) cs (createSupersetList g cs).1 := by
  intro cs
  induction cs with
  | nil => intro g; simp [createSupersetList]
  | cons c rest ih =>
    intro g
    simp only [createSupersetList]
    refine List.Forall₂.cons ?_ (ih _)
    cases c with
    | text s => simp [createSupersetNode]
    | elem nm a k =>
      intro s
      constructor
      · intro h; exact HNode.noConfusion h
      · intro h
        exfalso
        simp only [createSupersetNode] at h
        exact HNode.noConfusion h

theorem any_direct_text_eq : ∀ {cs cs' : List HNode},
    List.Forall₂ (fun c c' => ∀ s, c = .text s ↔ c' = .text s) cs cs' →
    (cs'.any (fun c => match c with | .text s => pyStrip s ≠ "" | .elem _ _ _ => false) =
      cs.any (fun c => match c with | .text s => pyStrip s ≠ "" | .elem _ _ _ => false)) := by
  intro cs cs' h
  induction h with
  | nil => rfl
  | @cons c c' rest rest' hcc hrest ih =>
    simp only [List.any_cons, ih]
    congr 1
    cases c with
    | text s =>
      have := (hcc s).mp rfl
      rw [this]
    | elem nm a k =>
      cases c' with
      | text t => exact absurd ((hcc t).mpr rfl) (fun h => HNode.noConfusion h)
      | elem nm' a' k' => rfl

theorem isTB_shape_eq (nm : String) (a a' : List (String × String))
    {cs cs' : List HNode}
    (h : List.Forall₂ (fun c c' => ∀ s, c = .text s ↔ c' = .text s) cs cs') :
    isTextContainingElement (.elem nm a' cs') = isTextContainingElement (.elem nm a cs) := by
  simp only [isTextContainingElement]
  rw [any_direct_text_eq h]

mutual
theorem supersetNode_tb : ∀ (n : HNode) (g : IDGenerator),
    ∀ e ∈ findAllElems (createSupersetNode g n).1,
      isTextContainingElement e = true → ∃ s, getAttr e "id" = some s ∧ s ≠ ""
  | .text s, g => by
    intro e he
    simp [createSupersetNode, findAllElems] at he
  | .elem nm a cs, g => by
    intro e he htb
    simp only [createSupersetNode, findAllElems] at he
    rcases List.mem_cons.mp he with rfl | hmem
    · -- the root element itself
      have hshape := supersetList_shape cs
        (if isTextContainingElement (.elem nm a cs) ∧ ¬truthyAttr (getAttr (.elem nm a cs) "id")
          then (setAttr a "id" (generate_id g (some nm)).1, (generate_id g (some nm)).2)
          else (a, g)).2
      by_cases hcond : isTextContainingElement (.elem nm a cs) = true ∧
          ¬truthyAttr (getAttr (.elem nm a cs) "id") = true
      · rw [if_pos hcond] at htb hshape ⊢
        refine ⟨(generate_id g (some nm)).1, ?_, (generate_id_spec g (some nm)).2.2.2.2⟩
        exact getAttr_setAttr nm a _ "id" (generate_id g (some nm)).1
      · rw [if_neg hcond] at htb hshape ⊢
        have htb0 : isTextContainingElement (.elem nm a cs) = true := by
          rw [← isTB_shape_eq nm a a hshape]
          exact htb
        have htruthy : truthyAttr (getAttr (.elem nm a cs) "id") = true := by
          by_contra hf
          exact hcond ⟨htb0, fun h => hf h⟩
        unfold truthyAttr at htruthy
        cases hget : getAttr (.elem nm a cs) "id" with
        | none => rw [hget] at htruthy; simp at htruthy
        | some s =>
          rw [hget] at htruthy
          simp only [ne_eq, decide_eq_true_eq] at htruthy
          exact ⟨s, hget, htruthy⟩
    · exact supersetList_tb cs _ e hmem htb

theorem supersetList_tb : ∀ (cs : List HNode) (g : IDGenerator),
    ∀ e ∈ findAllElemsList (createSupersetList g cs).1,
      isTextContainingElement e = true → ∃ s, getAttr e "id" = some s ∧ s ≠ ""
  | [], g => by
    intro e he
    simp [createSupersetList, findAllElemsList] at he
  | c :: rest, g => by
    intro e he htb
    simp only [createSupersetList, findAllElemsList] at he
    rcases List.mem_append.mp he with h | h
    · exact supersetNode_tb c g e h htb
    · exact supersetList_tb rest (createSupersetNode g c).2 e h htb
end

mutual
theorem supersetNode_idpres : ∀ (n : HNode) (g : IDGenerator),
    List.Forall₂ (fun e e' => ∀ s, getAttr e "id" = some s → s ≠ "" → getAttr e' "id" = some s)
      (findAllElems n) (findAllElems (createSupersetNode g n).1)
  | .text s, g => by
    simp [createSupersetNode, findAllElems]
  | .elem nm a cs, g => by
    simp only [createSupersetNode, findAllElems]
    refine List.Forall₂.cons ?_ (supersetList_idpres cs _)
    intro s hget hne
    by_cases hcond : isTextContainingElement (.elem nm a cs) = true ∧
        ¬truthyAttr (getAttr (.elem nm a cs) "id") = true
    · exact absurd (by rw [hget]; simpa [truthyAttr] using hne) hcond.2
    · rw [if_neg hcond]
      exact hget

theorem supersetList_idpres : ∀ (cs : List HNode) (g : IDGenerator),
    List.Forall₂ (fun e e' => ∀ s, getAttr e "id" = some s → s ≠ "" → getAttr e' "id" = some s)
      (findAllElemsList cs) (findAllElemsList (createSupersetList g cs).1)
  | [], g => by
    simp [createSupersetList, findAllElemsList]
  | c :: rest, g => by
    simp only [createSupersetList, findAllElemsList]
    exact List.rel_append (supersetNode_idpres c g) (supersetList_idpres rest _)
end

mutual
theorem cleanupNode_ids : ∀ (g : IDGenerator) (n : HNode),
    List.Forall₂ (fun e e' =>
      (∀ s, getAttr e "id" = some s → is_generated_id g s = false → getAttr e' "id" = some s) ∧
      (∀ s, getAttr e "id" = some s → is_generated_id g s = true → getAttr e' "id" = none))
      (findAllElems n) (findAllElems (cleanupNode g n))
  | g, .text s => by
    simp [cleanupNode, findAllElems]
  | g, .elem nm a cs => by
    simp only [cleanupNode, findAllElems]
    refine List.Forall₂.cons ⟨?_, ?_⟩ (cleanupList_ids g cs)
    · intro s hget hng
      rw [hget]
      simp only [hng, Bool.false_eq_true, if_false]
      exact hget
    · intro s hget hg
      rw [hget]
      simp only [hg, if_true]
      exact getAttr_delAttr nm a _

theorem cleanupList_ids : ∀ (g : IDGenerator) (cs : List HNode),
    List.Forall₂ (fun e e' =>
      (∀ s, getAttr e "id" = some s → is_generated_id g s = false → getAttr e' "id" = some s) ∧
      (∀ s, getAttr e "id" = some s → is_generated_id g s = true → getAttr e' "id" = none))
      (findAllElemsList cs) (findAllElemsList (cleanupList g cs))
  | g, [] => by
    simp [cleanupList, findAllElemsList]
  | g, c :: rest => by
    simp only [cleanupList, findAllElemsList]
    exact List.rel_append (cleanupNode_ids g c) (cleanupList_ids g rest)
end

mutual
theorem supersetNode_gen : ∀ (n : HNode) (g : IDGenerator),
    g.used_ids ⊆ (createSupersetNode g n).2.used_ids ∧
    (createSupersetNode g n).2.pfx = g.pfx ∧
    ∀ s ∈ (createSupersetNode g n).2.generated, s ∈ g.generated ∨ s ∉ g.used_ids
  | .text s, g => by
    simp only [createSupersetNode]
    exact ⟨fun s hs => hs, trivial, fun s hs => Or.inl hs⟩
  | .elem nm a cs, g => by
    by_cases hcond : isTextContainingElement (.elem nm a cs) = true ∧
        ¬truthyAttr (getAttr (.elem nm a cs) "id") = true
    · obtain ⟨hfresh, hused, hgen, hpfx, -⟩ := generate_id_spec g (some nm)
      obtain ⟨rs, rp, rg⟩ := supersetList_gen cs (generate_id g (some nm)).2
      simp only [createSupersetNode, if_pos hcond]
      refine ⟨?_, ?_, ?_⟩
      · intro s hs
        apply rs
        rw [hused]
        exact List.mem_cons_of_mem _ hs
      · rw [rp, hpfx]
      · intro s hs
        rcases rg s hs with h | h
        · rw [hgen] at h
          rcases List.mem_cons.mp h with rfl | h2
          · exact Or.inr hfresh
          · exact Or.inl h2
        · right
          intro hmem
          apply h
          rw [hused]
          exact List.mem_cons_of_mem _ hmem
    · obtain ⟨rs, rp, rg⟩ := supersetList_gen cs g
      simp only [createSupersetNode, if_neg hcond]
      exact ⟨rs, rp, rg⟩

theorem supersetList_gen : ∀ (cs : List HNode) (g : IDGenerator),
    g.used_ids ⊆ (createSupersetList g cs).2.used_ids ∧
    (createSupersetList g cs).2.pfx = g.pfx ∧
    ∀ s ∈ (createSupersetList g cs).2.generated, s ∈ g.generated ∨ s ∉ g.used_ids
  | [], g => by
    simp only [createSupersetList]
    exact ⟨fun s hs => hs, trivial, fun s hs => Or.inl hs⟩
  | c :: rest, g => by
    obtain ⟨ns, np, ng⟩ := supersetNode_gen c g
    obtain ⟨rs, rp, rg⟩ := supersetList_gen rest (createSupersetNode g c).2
    simp only [createSupersetList]
    refine ⟨fun s hs => rs (ns hs), by rw [rp, np], ?_⟩
    intro s hs
    rcases rg s hs with h | h
    · rcases ng s h with h2 | h2
      · exact Or.inl h2
      · exact Or.inr h2
    · right
      intro hmem
      exact h (ns hmem)
end

theorem register_foldl : ∀ (l : List String) (g : IDGenerator),
    (l.foldl register_existing_id g).generated = g.generated ∧
    (l.foldl register_existing_id g).pfx = g.pfx ∧
    g.used_ids ⊆ (l.foldl register_existing_id g).used_ids ∧
    ∀ s ∈ l, s ∈ (l.foldl register_existing_id g).used_ids := by
  intro l
  induction l with
  | nil => intro g; simp
  | cons x rest ih =>
    intro g
    obtain ⟨ig, ip, iu, im⟩ := ih (register_existing_id g x)
    have hx : x ∈ (register_existing_id g x).used_ids := by
      unfold register_existing_id
      split_ifs with h
      · exact h
      · exact List.mem_cons_self _ _
    have hsub : g.used_ids ⊆ (register_existing_id g x).used_ids := by
      unfold register_existing_id
      split_ifs with h
      · exact fun s hs => hs
      · exact fun s hs => List.mem_cons_of_mem _ hs
    have hgen : (register_existing_id g x).generated = g.generated := by
      unfold register_existing_id
      split_ifs <;> rfl
    have hpfx : (register_existing_id g x).pfx = g.pfx := by
      unfold register_existing_id
      split_ifs <;> rfl
    refine ⟨by rw [List.foldl_cons, ig, hgen], by rw [List.foldl_cons, ip, hpfx], ?_, ?_⟩
    · intro s hs
      rw [List.foldl_cons]
      exact iu (hsub hs)
    · intro s hs
      rcases List.mem_cons.mp hs with rfl | h2
      · rw [List.foldl_cons]
        exact iu hx
      · rw [List.foldl_cons]
        exact im s h2

/-! ### C3: id annotation and cleanup invariants -/

/-- C3 (amended): after extract, every text-bearing element of the Full Copy
carries a non-empty id; an element that already had a non-empty id never has
it overwritten; cleanup deletes an id exactly when the generator recognizes it
as minted, so unrecognized ids survive the merge cleanup unchanged; and on a
fresh instance no id present in the input document is ever recognized as
minted. -/
theorem c3_id_invariants (g : IDGenerator) (doc : List HNode) :
    (∀ e ∈ findAll (extract g doc).1.1, isTextContainingElement e = true →
      ∃ s, getAttr e "id" = some s ∧ s ≠ "") ∧
    List.Forall₂ (fun e e' => ∀ s, getAttr e "id" = some s → s ≠ "" → getAttr e' "id" = some s)
      (findAll doc) (findAll (extract g doc).1.1) ∧
    (∀ (g' : IDGenerator) (tree : List HNode),
      List.Forall₂ (fun e e' =>
        (∀ s, getAttr e "id" = some s → is_generated_id g' s = false → getAttr e' "id" = some s) ∧
        (∀ s, getAttr e "id" = some s → is_generated_id g' s = true → getAttr e' "id" = none))
        (findAll tree) (findAll (cleanupList g' tree))) ∧
    (g.generated = [] → ∀ s ∈ (findAll doc).filterMap (fun e => getAttr e "id"),
      is_generated_id (extract g doc).2 s = false) := by
  refine ⟨?_, ?_, ?_, ?_⟩
  · exact supersetList_tb doc (registerExistingIds g doc)
  · exact supersetList_idpres doc (registerExistingIds g doc)
  · intro g' tree
    exact cleanupList_ids g' tree
  · intro hgen s hs
    obtain ⟨rg, rp, ru, rm⟩ := register_foldl ((findAll doc).filterMap (fun e => getAttr e "id")) g
    obtain ⟨ss, sp, sg⟩ := supersetList_gen doc (registerExistingIds g doc)
    rw [← Bool.not_eq_true]
    intro htrue
    simp only [is_generated_id, Bool.and_eq_true, decide_eq_true_eq] at htrue
    have hsgen : s ∈ (extract g doc).2.generated := htrue.2
    rcases sg s hsgen with h | h
    · rw [show (registerExistingIds g doc).generated = g.generated from rg, hgen] at h
      simp at h
    · exact h (rm s hs)

/-- Counterexample to C3 as stated: an element whose pre-existing `id` is the
empty string does have that id overwritten during extract (the source checks
Python truthiness, not attribute presence). -/
theorem c3_counterexample :
    getAttr (HNode.elem "p" [("id", "")] [.text "hi"]) "id" = some "" ∧
    (extract (IDGenerator.init "auto_") [.elem "p" [("id", "")] [.text "hi"]]).1.1 =
      [.elem "p" [("id", "auto_p_0")] [.text "hi"]] := by
  constructor
  · decide
  · decide

/-- Witness for C3: a non-empty pre-existing id `keep` survives extract on the
element that carries it, and the final generator never recognizes it as
minted. -/
theorem c3_id_invariants_witness :
    (∃ s, getAttr (HNode.elem "p" [("id", "keep")] [.text "hi"]) "id" = some s ∧ s ≠ "") ∧
    is_generated_id
      (extract (IDGenerator.init "auto_") [.elem "p" [("id", "keep")] [.text "hi"]]).2
      "keep" = false := by
  have H := c3_id_invariants (IDGenerator.init "auto_") [.elem "p" [("id", "keep")] [.text "hi"]]
  exact ⟨H.1 (HNode.elem "p" [("id", "keep")] [.text "hi"]) (by decide) (by decide),
    H.2.2.2 rfl "keep" (by decide)⟩

/-! ### C4: the subset is a flat projection -/

theorem foldl_append_eq_map : ∀ (l : List HNode) (f : HNode → HNode) (acc : List HNode),
    l.foldl (fun acc e => acc ++ [f e]) acc = acc ++ l.map f := by
  intro l
  induction l with
  | nil => intro f acc; simp
  | cons x rest ih =>
    intro f acc
    simp only [List.foldl_cons, List.map_cons, ih]
    simp

/-- C4: the second result of extract is the fresh minimal `html > body`
document whose body holds, in document order, one flat element per
text-bearing element of the Full Copy, with the same tag name, the same id
when the source element has one, and the flattened text as content. -/
theorem c4_subset_flat_projection (g : IDGenerator) (doc : List HNode) :
    (extract g doc).1.2 = specC4Subset (extract g doc).1.1 := by
  have htb := supersetList_tb doc (registerExistingIds g doc)
  simp only [extract, createSubset, specC4Subset]
  rw [foldl_append_eq_map, List.nil_append]
  refine congrArg (fun x => [HNode.elem "html" [] [HNode.elem "body" [] x]]) ?_
  have hfe : List.filter isTranslatableElement
      (findAll (createSupersetList (registerExistingIds g doc) doc).1) =
      List.filter (fun e => isTextContainingElement e)
        (findAll (createSupersetList (registerExistingIds g doc) doc).1) := rfl
  rw [hfe]
  apply List.map_congr_left
  intro e he
  have hmem := List.mem_filter.mp he
  have htbe : isTextContainingElement e = true := by
    have := hmem.2
    simpa [isTranslatableElement] using this
  obtain ⟨s, hget, hne⟩ := htb e hmem.1 htbe
  unfold mkFlat
  rw [hget]
  show HNode.elem e.name (if s ≠ "" then [("id", s)] else [])
      (if extractTextContent e ≠ "" then [HNode.text (extractTextContent e)] else []) =
    HNode.elem e.name [("id", s)]
      (if extractTextContent e ≠ "" then [HNode.text (extractTextContent e)] else [])
  rw [if_pos hne]

/-! ### C5: the weighted composite -/

theorem dictEq_keys_eq {a b : List (String × String)} (h : dictEq a b = true) :
    (a.map Prod.fst).toFinset = (b.map Prod.fst).toFinset := by
  unfold dictEq at h
  rw [Bool.and_eq_true] at h
  obtain ⟨hab, hba⟩ := h
  rw [List.all_eq_true] at hab hba
  apply Finset.ext
  intro k
  simp only [List.mem_toFinset, List.mem_map]
  constructor
  · rintro ⟨kv, hkv, rfl⟩
    have := hab kv hkv
    rw [decide_eq_true_eq] at this
    rcases hfind : b.find? (fun kv2 => kv2.1 = kv.1) with _ | p
    · rw [hfind] at this; simp at this
    · have hp := List.find?_some hfind
      rw [decide_eq_true_eq] at hp
      exact ⟨p, List.mem_of_find?_eq_some hfind, hp⟩
  · rintro ⟨kv, hkv, rfl⟩
    have := hba kv hkv
    rw [decide_eq_true_eq] at this
    rcases hfind : a.find? (fun kv2 => kv2.1 = kv.1) with _ | p
    · rw [hfind] at this; simp at this
    · have hp := List.find?_some hfind
      rw [decide_eq_true_eq] at hp
      exact ⟨p, List.mem_of_find?_eq_some hfind, hp⟩

theorem structureSimilarity_eq_amended (n1 n2 : HNode) :
    structureSimilarity n1 n2 = amendedC5StructureScore n1 n2 := by
  unfold structureSimilarity amendedC5StructureScore claimC5StructureScore
  dsimp only
  by_cases hnm : n1.name ≠ n2.name
  · rw [if_pos hnm, if_pos hnm]
  · rw [if_neg hnm, if_neg hnm]
    by_cases hdeq : dictEq (n1.attrs.filter (fun kv => !(List.isPrefixOf "id".data kv.1.data)))
        (n2.attrs.filter (fun kv => !(List.isPrefixOf "id".data kv.1.data))) = true
    · rw [if_pos hdeq]
      have hk := dictEq_keys_eq hdeq
      rw [hk]
      by_cases hempty : ((n2.attrs.filter (fun kv => !(List.isPrefixOf "id".data kv.1.data))).map Prod.fst).toFinset = (∅ : Finset String)
      · rw [Finset.union_self, if_pos hempty]
      · rw [Finset.union_self, if_neg hempty, Finset.inter_self]
        rw [div_self]
        intro hzero
        apply hempty
        have : ((n2.attrs.filter (fun kv => !(List.isPrefixOf "id".data kv.1.data))).map Prod.fst).toFinset.card = 0 := by
          exact_mod_cast hzero
        exact Finset.card_eq_zero.mp this
    · rw [if_neg hdeq]

theorem idSimilarity_eq_zero_of_ne_one {n1 n2 : HNode}
    (h : idSimilarity n1 n2 ≠ 1) : idSimilarity n1 n2 = 0 := by
  unfold idSimilarity at h ⊢
  cases hg1 : getAttr n1 "id" <;> cases hg2 : getAttr n2 "id"
  · rfl
  · rfl
  · rfl
  · rw [hg1, hg2] at h
    dsimp only at h ⊢
    split_ifs at h ⊢ with hc
    · exact absurd rfl h
    · rfl

/-- C5 (amended): when neither the id-match rule nor the content-hash-match
rule fires, the similarity is the weighted composite
`0.4*idScore + 0.3*hashScore + 0.2*textScore + 0.1*structureScore` with
`idScore = hashScore = 0`, where `structureScore` is the Jaccard overlap of
the attribute keys excluding keys named or prefixed `id`, special-cased to 1.0
when both elements have zero comparable attributes — and 0.0 whenever the two
tag names differ. -/
theorem c5_weighted_composite (m : MState) (e1 e2 : HElem)
    (hid : idSimilarity e1.node e2.node ≠ 1)
    (hhash : (getContentHash m e1).1 ≠ (getContentHash (getContentHash m e1).2 e2).1) :
    (calculateSimilarity m e1 e2).1 =
      0.4 * 0 + 0.3 * 0 + 0.2 * textSimilarity e1.node e2.node +
        0.1 * amendedC5StructureScore e1.node e2.node := by
  unfold calculateSimilarity
  rw [if_neg hid]
  simp only [if_neg hhash]
  rw [if_neg (by norm_num : ¬(0 : ℚ) = 1)]
  rw [idSimilarity_eq_zero_of_ne_one hid, structureSimilarity_eq_amended]
  ring

/-- Witness for C5: two id-less elements with the same tag, different
attributes and different texts fall through to the amended weighted
composite. -/
theorem c5_weighted_composite_witness :
    (calculateSimilarity MState.empty ⟨0, .elem "p" [] [.text "hello"]⟩
        ⟨1, .elem "p" [("class", "x")] [.text "hello"]⟩).1 =
      0.4 * 0 + 0.3 * 0 +
        0.2 * textSimilarity (HNode.elem "p" [] [.text "hello"])
          (HNode.elem "p" [("class", "x")] [.text "hello"]) +
        0.1 * amendedC5StructureScore (HNode.elem "p" [] [.text "hello"])
          (HNode.elem "p" [("class", "x")] [.text "hello"]) :=
  c5_weighted_composite MState.empty ⟨0, .elem "p" [] [.text "hello"]⟩
    ⟨1, .elem "p" [("class", "x")] [.text "hello"]⟩ (by decide) (by decide)

theorem indelDist_self : ∀ l : List Char, indelDist l l = 0 := by
  intro l
  induction l with
  | nil => simp [indelDist]
  | cons c cs ih => simp [indelDist, ih]

theorem textSimilarity_eq_one_of_eq {n1 n2 : HNode}
    (h : getElementText n1 = getElementText n2) (hne : getElementText n1 ≠ "") :
    textSimilarity n1 n2 = 1 := by
  unfold textSimilarity
  dsimp only
  rw [← h, if_neg (by simp [hne])]
  unfold fuzzRatio
  dsimp only
  rw [indelDist_self]
  have hlen : (getElementText n1).data.length ≠ 0 := by
    intro h0
    apply hne
    apply string_data_inj
    rw [List.length_eq_zero.mp h0]
  rw [if_neg (by omega)]
  have hl0 : (((getElementText n1).data.length + (getElementText n1).data.length : Nat) : ℚ) ≠ 0 := by
    have hnz : (getElementText n1).data.length + (getElementText n1).data.length ≠ 0 := by omega
    exact_mod_cast hnz
  rw [Nat.cast_zero, sub_zero, div_self hl0]
  norm_num

/-- Counterexample to C5 as stated: for `<p>hello</p>` vs `<div>hello</div>`
neither short-circuit rule fires, both elements have zero comparable
attributes, and the code scores 0.2 (its structure score is 0.0 on a tag-name
mismatch) while the claim's formula — whose structure score is 1.0 whenever
both elements have zero comparable attributes — yields 0.3. -/
theorem c5_counterexample :
    idSimilarity (HNode.elem "p" [] [.text "hello"]) (HNode.elem "div" [] [.text "hello"]) ≠ 1 ∧
    hashKeyOf (HNode.elem "p" [] [.text "hello"]) ≠ hashKeyOf (HNode.elem "div" [] [.text "hello"]) ∧
    (calculateSimilarity MState.empty ⟨0, .elem "p" [] [.text "hello"]⟩
        ⟨1, .elem "div" [] [.text "hello"]⟩).1 = 1/5 ∧
    0.4 * 0 + 0.3 * 0 +
      0.2 * textSimilarity (HNode.elem "p" [] [.text "hello"]) (HNode.elem "div" [] [.text "hello"]) +
      0.1 * claimC5StructureScore (HNode.elem "p" [] [.text "hello"]) (HNode.elem "div" [] [.text "hello"])
      = (3/10 : ℚ) ∧
    (1/5 : ℚ) ≠ 3/10 := by
  have htext : textSimilarity (HNode.elem "p" [] [.text "hello"])
      (HNode.elem "div" [] [.text "hello"]) = 1 :=
    textSimilarity_eq_one_of_eq (by decide) (by decide)
  have hstruct : claimC5StructureScore (HNode.elem "p" [] [.text "hello"])
      (HNode.elem "div" [] [.text "hello"]) = 1 := by
    unfold claimC5StructureScore
    norm_num [HNode.attrs]
  have hidz : idSimilarity (HNode.elem "p" [] [.text "hello"])
      (HNode.elem "div" [] [.text "hello"]) = 0 := by decide
  have hkey : hashKeyOf (HNode.elem "p" [] [.text "hello"]) ≠
      hashKeyOf (HNode.elem "div" [] [.text "hello"]) := by decide
  have hcache : (getContentHash MState.empty ⟨0, .elem "p" [] [.text "hello"]⟩).1 =
      hashKeyOf (HNode.elem "p" [] [.text "hello"]) := by decide
  have hcache2 : (getContentHash
      (getContentHash MState.empty ⟨0, .elem "p" [] [.text "hello"]⟩).2
      ⟨1, .elem "div" [] [.text "hello"]⟩).1 =
      hashKeyOf (HNode.elem "div" [] [.text "hello"]) := by decide
  have hstructz : structureSimilarity (HNode.elem "p" [] [.text "hello"])
      (HNode.elem "div" [] [.text "hello"]) = 0 := by
    unfold structureSimilarity
    rw [if_pos (by decide : (HNode.elem "p" [] [.text "hello"]).name ≠
      (HNode.elem "div" [] [.text "hello"]).name)]
  refine ⟨by rw [hidz]; norm_num, hkey, ?_, by rw [htext, hstruct]; norm_num, by norm_num⟩
  unfold calculateSimilarity
  dsimp only
  rw [if_neg (show ¬idSimilarity (HNode.elem "p" [] [.text "hello"])
      (HNode.elem "div" [] [.text "hello"]) = 1 by rw [hidz]; norm_num)]
  rw [hcache, hcache2, if_neg hkey]
  rw [if_neg (by norm_num : ¬(0 : ℚ) = 1)]
  dsimp only
  rw [hidz, htext, hstructz]
  norm_num

/-! ### C1: the splice pass -/

theorem pyLower_eq_empty_iff (s : String) : pyLower s = "" ↔ s = "" := by
  constructor
  · intro h
    have hd : (s.data.map Char.toLower) = [] := congrArg String.data h
    have : s.data = [] := List.map_eq_nil_iff.mp hd
    apply string_data_inj
    rw [this]
  · intro h
    rw [h]
    rfl

theorem pySubstr_empty (s : String) : pySubstr "" s = true := by
  unfold pySubstr
  show infixAux [] s.data = true
  cases s.data with
  | nil => rfl
  | cons c cs => simp [infixAux, List.isPrefixOf]

theorem keepChild_eq_spec (mb : List (String × ERec)) (nt : String) (c : HNode) :
    keepChild mb nt c = specC1KeepChild mb nt c := by
  cases c with
  | text s => rfl
  | elem nm a cs =>
    unfold keepChild specC1KeepChild
    dsimp only
    cases hget : getAttr (.elem nm a cs) "id" with
    | none => rfl
    | some cid =>
      dsimp only [HNode.isText]
      simp only [Bool.false_eq_true, if_false]
      by_cases hcid : cid = ""
      · rw [if_pos hcid, if_pos hcid]
      · rw [if_neg hcid, if_neg hcid]
        cases hec : (mb.lookup cid).bind (fun r => r.1) with
        | none => rfl
        | some ec =>
          dsimp only
          by_cases htext : extractTextContent (.elem nm a cs) = ""
          · have hsub : pySubstr (pyLower "") (pyLower nt) = true := pySubstr_empty _
            simp [htext, hsub]
          · have hlow : pyLower (extractTextContent (.elem nm a cs)) ≠ "" :=
              fun h => htext ((pyLower_eq_empty_iff _).mp h)
            simp [htext, hlow]

theorem spliceText_eq_spec (mb : List (String × ERec)) (nt : String) (el : HNode) :
    spliceText mb nt el = specC1Splice mb nt el := by
  cases el with
  | text s => rfl
  | elem nm a cs =>
    unfold spliceText specC1Splice
    dsimp only
    rw [List.filter_congr (fun c _ => keepChild_eq_spec mb nt c)]

theorem applyOne_eq_spec (thr : ℚ) (mb : List (String × ERec)) (doc : List HNode)
    (r : ERec) : applyOne thr mb doc r = specC1ApplyOne thr mb doc r := by
  have hsplice : ∀ nt : String, spliceText mb nt = specC1Splice mb nt := by
    intro nt
    funext el
    exact spliceText_eq_spec mb nt el
  unfold applyOne specC1ApplyOne
  obtain ⟨e, o, conf⟩ := r
  cases e with
  | none => rfl
  | some e =>
    cases o with
    | none => rfl
    | some o =>
      dsimp only
      rw [hsplice]

/-- C1 (amended): the splice pass equals the claim's description, with "carries
an id" read as carrying a non-empty id: for every matched record with
confidence at or above the threshold, both slots present, and a Full Copy
element located by the baseline element's (non-empty) id, when the edited
flattened text is non-empty, each direct child sub-element carrying a NON-EMPTY
id is removed when its match record has no edited counterpart, or when its
text is unchanged and its lowercased text no longer occurs in the lowercased
new parent text; then all direct text runs are removed and the new text is
inserted first (or becomes the sole content). -/
theorem c1_splice_matches_spec (thr : ℚ) (recs : List ERec) (doc : List HNode) :
    applyChangesToSuperset thr recs doc = specC1ApplyChanges thr recs doc := by
  unfold applyChangesToSuperset specC1ApplyChanges
  dsimp only
  have hf : applyOne thr (buildMatchById recs) = specC1ApplyOne thr (buildMatchById recs) := by
    funext d r
    exact applyOne_eq_spec thr (buildMatchById recs) d r
  rw [hf]

/-- Counterexample to C1 as stated: a direct child that carries the (empty)
id `""` and has no match record — hence no edited counterpart — is NOT removed
by the code, although every other condition of the claim holds (matched
record with confidence above threshold, both slots present, element located by
the baseline id, non-empty new text). -/
theorem c1_counterexample :
    extractTextContent (HNode.elem "div" [("id", "parent")] [.text "new text"]) = "new text" ∧
    getAttr (HNode.elem "span" [("id", "")] [.text "old"]) "id" = some "" ∧
    (buildMatchById [(some (.elem "div" [("id", "parent")] [.text "new text"]),
        some (.elem "div" [("id", "parent")] [.text "oldtext old"]), 1)]).lookup "" = none ∧
    applyChangesToSuperset 1
      [(some (.elem "div" [("id", "parent")] [.text "new text"]),
        some (.elem "div" [("id", "parent")] [.text "oldtext old"]), 1)]
      [.elem "div" [("id", "parent")]
        [.elem "span" [("id", "")] [.text "old"], .text "oldtext"]] =
      [.elem "div" [("id", "parent")]
        [.text "new text", .elem "span" [("id", "")] [.text "old"]]] := by
  refine ⟨by decide, by decide, by decide, ?_⟩
  decide

/-! ### C9: matching determinism (the cache replays) -/

theorem cacheLE_refl (c : List (Nat × (String × List (String × String) × String))) :
    cacheLE c c := fun _ _ h => h

theorem cacheLE_trans {a b c : List (Nat × (String × List (String × String) × String))}
    (h1 : cacheLE a b) (h2 : cacheLE b c) : cacheLE a c :=
  fun h v hv => h2 h v (h1 h v hv)

theorem getContentHash_mono (m : MState) (e : HElem) :
    cacheLE m.cache (getContentHash m e).2.cache := by
  unfold getContentHash
  cases hl : m.cache.lookup e.handle with
  | some v => exact cacheLE_refl _
  | none =>
    intro h v hv
    simp only [List.lookup]
    have hne : (h == e.handle) = false := by
      rw [beq_eq_false_iff_ne]
      intro heq
      rw [heq] at hv
      rw [hv] at hl
      exact Option.noConfusion hl
    rw [hne]
    exact hv

theorem getContentHash_replay (m : MState) (e : HElem) (c' : MState)
    (h : cacheLE (getContentHash m e).2.cache c'.cache) :
    getContentHash c' e = ((getContentHash m e).1, c') := by
  unfold getContentHash at *
  cases hl : m.cache.lookup e.handle with
  | some v =>
    rw [hl] at h
    have := h e.handle v hl
    rw [this]
  | none =>
    rw [hl] at h
    have hself : ((e.handle, hashKeyOf e.node) :: m.cache).lookup e.handle =
        some (hashKeyOf e.node) := by
      simp [List.lookup]
    have := h e.handle (hashKeyOf e.node) hself
    rw [this]

theorem calcSim_mono (m : MState) (e1 e2 : HElem) :
    cacheLE m.cache (calculateSimilarity m e1 e2).2.cache := by
  unfold calculateSimilarity
  by_cases hid : idSimilarity e1.node e2.node = 1
  · rw [if_pos hid]
    exact cacheLE_refl _
  · rw [if_neg hid]
    dsimp only
    have h1 := getContentHash_mono m e1
    have h2 := getContentHash_mono (getContentHash m e1).2 e2
    have h12 := cacheLE_trans h1 h2
    split_ifs <;> exact h12

theorem pair_snd_ite (C : Prop) [Decidable C] (x y : ℚ) (st : MState) :
    (if C then (x, st) else (y, st)).2 = st := by
  split_ifs <;> rfl

theorem calcSim_replay (m : MState) (e1 e2 : HElem) (c' : MState)
    (h : cacheLE (calculateSimilarity m e1 e2).2.cache c'.cache) :
    calculateSimilarity c' e1 e2 = ((calculateSimilarity m e1 e2).1, c') := by
  unfold calculateSimilarity at h ⊢
  dsimp only at h ⊢
  by_cases hid : idSimilarity e1.node e2.node = 1
  · simp only [if_pos hid] at h ⊢
  · simp only [if_neg hid] at h ⊢
    rw [pair_snd_ite] at h
    have hle1 : cacheLE (getContentHash m e1).2.cache c'.cache :=
      cacheLE_trans (getContentHash_mono (getContentHash m e1).2 e2) h
    have hr1 := getContentHash_replay m e1 c' hle1
    have hr2 := getContentHash_replay (getContentHash m e1).2 e2 c' h
    rw [hr1]
    dsimp only
    rw [hr2]
    dsimp only
    split_ifs <;> rfl

theorem bestLoop_mono (thr : ℚ) (e : HElem) (used : List Nat) :
    ∀ (cands : List (Nat × HElem)) (m : MState) (best : Option (HElem × Nat)) (bs : ℚ),
    cacheLE m.cache (bestLoop thr e used cands m best bs).2.cache := by
  intro cands
  induction cands with
  | nil => intro m best bs; exact cacheLE_refl _
  | cons p rest ih =>
    intro m best bs
    obtain ⟨idx, oe⟩ := p
    unfold bestLoop
    by_cases hu : idx ∈ used
    · rw [if_pos hu]
      exact ih m best bs
    · rw [if_neg hu]
      dsimp only
      have h1 := calcSim_mono m e oe
      split_ifs
      · exact cacheLE_trans h1 (ih _ _ _)
      · exact cacheLE_trans h1 (ih _ _ _)

theorem bestLoop_replay (thr : ℚ) (e : HElem) (used : List Nat) :
    ∀ (cands : List (Nat × HElem)) (m : MState) (best : Option (HElem × Nat)) (bs : ℚ)
      (c' : MState),
    cacheLE (bestLoop thr e used cands m best bs).2.cache c'.cache →
    bestLoop thr e used cands c' best bs =
      ((bestLoop thr e used cands m best bs).1, c') := by
  intro cands
  induction cands with
  | nil =>
    intro m best bs c' h
    rfl
  | cons p rest ih =>
    intro m best bs c' h
    obtain ⟨idx, oe⟩ := p
    unfold bestLoop at h ⊢
    by_cases hu : idx ∈ used
    · simp only [if_pos hu] at h ⊢
      exact ih m best bs c' h
    · simp only [if_neg hu] at h ⊢
      have hrest : cacheLE (calculateSimilarity m e oe).2.cache c'.cache := by
        split_ifs at h with hc
        · exact cacheLE_trans (bestLoop_mono thr e used rest _ _ _) h
        · exact cacheLE_trans (bestLoop_mono thr e used rest _ _ _) h
      have hcs := calcSim_replay m e oe c' hrest
      rw [hcs]
      dsimp only
      split_ifs at h ⊢ with hc
      · exact ih _ _ _ c' h
      · exact ih _ _ _ c' h

theorem matchLoop_mono (thr : ℚ) (indexed : List (Nat × HElem)) :
    ∀ (es : List HElem) (used : List Nat) (m : MState),
    cacheLE m.cache (matchLoop thr indexed es used m).2.2.cache := by
  intro es
  induction es with
  | nil => intro used m; exact cacheLE_refl _
  | cons e rest ih =>
    intro used m
    unfold matchLoop
    dsimp only
    have h1 := bestLoop_mono thr e used indexed m none 0
    cases hbr : (bestLoop thr e used indexed m none 0).1.1 with
    | some q =>
      obtain ⟨oe, idx⟩ := q
      dsimp only
      exact cacheLE_trans h1 (ih _ _)
    | none =>
      dsimp only
      exact cacheLE_trans h1 (ih _ _)

theorem matchLoop_replay (thr : ℚ) (indexed : List (Nat × HElem)) :
    ∀ (es : List HElem) (used : List Nat) (m : MState) (c' : MState),
    cacheLE (matchLoop thr indexed es used m).2.2.cache c'.cache →
    matchLoop thr indexed es used c' =
      ((matchLoop thr indexed es used m).1, (matchLoop thr indexed es used m).2.1, c') := by
  intro es
  induction es with
  | nil =>
    intro used m c' h
    rfl
  | cons e rest ih =>
    intro used m c' h
    unfold matchLoop at h ⊢
    dsimp only at h ⊢
    have hb : cacheLE (bestLoop thr e used indexed m none 0).2.cache c'.cache := by
      cases hbr : (bestLoop thr e used indexed m none 0).1.1 with
      | some q =>
        obtain ⟨oe, idx⟩ := q
        rw [hbr] at h
        dsimp only at h
        exact cacheLE_trans (matchLoop_mono thr indexed rest _ _) h
      | none =>
        rw [hbr] at h
        dsimp only at h
        exact cacheLE_trans (matchLoop_mono thr indexed rest _ _) h
    have hbl := bestLoop_replay thr e used indexed m none 0 c' hb
    rw [hbl]
    dsimp only
    cases hbr : (bestLoop thr e used indexed m none 0).1.1 with
    | some q =>
      obtain ⟨oe, idx⟩ := q
      rw [hbr] at h
      dsimp only at h ⊢
      rw [ih _ _ c' h]
    | none =>
      rw [hbr] at h
      dsimp only at h ⊢
      rw [ih _ _ c' h]

/-- C9: calling `match_elements` a second time with the identical edited and
baseline lists — on the same matcher instance, whose content-hash cache was
mutated by the first call — returns the identical list of match records. -/
theorem c9_match_elements_deterministic (thr : ℚ) (m : MState)
    (edited originals : List HElem) :
    (match_elements thr ((match_elements thr m edited originals).2) edited originals).1 =
      (match_elements thr m edited originals).1 := by
  unfold match_elements
  dsimp only
  have h := matchLoop_replay thr originals.enum edited [] m
    (matchLoop thr originals.enum edited [] m).2.2 (cacheLE_refl _)
  rw [h]

/-! ### C2: greedy selection and the threshold boundary -/

theorem getContentHash_accurate {m : MState} {es : List HElem}
    (hacc : CacheAccurate m es) (hcons : HandlesConsistent es) {e : HElem} (he : e ∈ es) :
    (getContentHash m e).1 = hashKeyOf e.node ∧ CacheAccurate (getContentHash m e).2 es := by
  unfold getContentHash
  cases hl : m.cache.lookup e.handle with
  | some v =>
    exact ⟨hacc e he v hl, hacc⟩
  | none =>
    refine ⟨rfl, ?_⟩
    intro e' he' v hv
    simp only [List.lookup] at hv
    by_cases hh : e'.handle = e.handle
    · rw [show (e'.handle == e.handle) = true from beq_iff_eq.mpr hh] at hv
      have hnode := hcons e' he' e he hh
      rw [hnode]
      exact (Option.some.inj hv).symm
    · rw [show (e'.handle == e.handle) = false from beq_eq_false_iff_ne.mpr hh] at hv
      exact hacc e' he' v hv

theorem calcSim_accurate {m : MState} {es : List HElem}
    (hacc : CacheAccurate m es) (hcons : HandlesConsistent es)
    {e1 e2 : HElem} (h1 : e1 ∈ es) (h2 : e2 ∈ es) :
    (calculateSimilarity m e1 e2).1 = calculateSimilarityPure e1.node e2.node ∧
    CacheAccurate (calculateSimilarity m e1 e2).2 es := by
  unfold calculateSimilarity calculateSimilarityPure
  dsimp only
  by_cases hid : idSimilarity e1.node e2.node = 1
  · simp only [if_pos hid]
    exact ⟨trivial, hacc⟩
  · simp only [if_neg hid]
    obtain ⟨hk1, hacc1⟩ := getContentHash_accurate hacc hcons h1
    obtain ⟨hk2, hacc2⟩ := getContentHash_accurate hacc1 hcons h2
    rw [hk1, hk2]
    split_ifs <;> exact ⟨rfl, hacc2⟩

theorem bestLoop_spec_aux (thr : ℚ) (e : HElem) (used : List Nat) (hthr : 0 < thr) :
    ∀ (cands : List (Nat × HElem)) (m : MState) (es : List HElem),
      CacheAccurate m es → HandlesConsistent es → e ∈ es →
      (∀ p ∈ cands, p.2 ∈ es) →
      ∀ (best : Option (HElem × Nat)) (bs : ℚ) (acc : Option ((Nat × HElem) × ℚ)),
      ((best = none ∧ bs = 0 ∧ acc = none) ∨
        (∃ oe i s, best = some (oe, i) ∧ bs = s ∧ acc = some ((i, oe), s) ∧ thr ≤ s)) →
      (bestLoop thr e used cands m best bs).1 =
        (match (((cands.filter (fun p => p.1 ∉ used)).map
            (fun p => (p, calculateSimilarityPure e.node p.2.node))).filter
              (fun q => thr ≤ q.2)).foldl
            (fun acc q => match acc with
              | none => some q
              | some a => if a.2 < q.2 then some q else acc) acc with
          | some q => (some (q.1.2, q.1.1), q.2)
          | none => ((none : Option (HElem × Nat)), (0 : ℚ))) := by
  intro cands
  induction cands with
  | nil =>
    intro m es hacc hcons he hsub best bs acc hrel
    rcases hrel with ⟨rfl, rfl, rfl⟩ | ⟨oe0, i0, s0, rfl, rfl, rfl, hts⟩
    · rfl
    · rfl
  | cons p rest ih =>
    intro m es hacc hcons he hsub best bs acc hrel
    obtain ⟨idx, oe⟩ := p
    by_cases hu : idx ∈ used
    · have h1 : bestLoop thr e used ((idx, oe) :: rest) m best bs =
          bestLoop thr e used rest m best bs := by
        rw [bestLoop, if_pos hu]
      have h2 : ((idx, oe) :: rest).filter (fun p => p.1 ∉ used) =
          rest.filter (fun p => p.1 ∉ used) := by
        rw [List.filter_cons]
        simp [hu]
      rw [h1, h2]
      exact ih m es hacc hcons he (fun q hq => hsub q (List.mem_cons_of_mem _ hq)) best bs acc hrel
    · obtain ⟨hscore, hacc'⟩ :=
        calcSim_accurate hacc hcons he (hsub (idx, oe) (List.mem_cons_self _ _))
      dsimp only at hscore hacc'
      have hstep : bestLoop thr e used ((idx, oe) :: rest) m best bs =
          if bs < (calculateSimilarity m e oe).1 ∧ thr ≤ (calculateSimilarity m e oe).1 then
            bestLoop thr e used rest (calculateSimilarity m e oe).2
              (some (oe, idx)) (calculateSimilarity m e oe).1
          else bestLoop thr e used rest (calculateSimilarity m e oe).2 best bs := by
        rw [bestLoop, if_neg hu]
      have h2 : ((idx, oe) :: rest).filter (fun p => p.1 ∉ used) =
          (idx, oe) :: rest.filter (fun p => p.1 ∉ used) := by
        rw [List.filter_cons]
        simp [hu]
      rw [h2]
      simp only [List.map_cons, List.filter_cons]
      by_cases hq : thr ≤ calculateSimilarityPure e.node oe.node
      · rw [if_pos (by simpa using hq)]
        simp only [List.foldl_cons]
        rcases hrel with ⟨rfl, rfl, rfl⟩ | ⟨oe0, i0, s0, rfl, rfl, rfl, hts⟩
        · have hcond : (0 : ℚ) < (calculateSimilarity m e oe).1 ∧
              thr ≤ (calculateSimilarity m e oe).1 := by
            rw [hscore]
            exact ⟨lt_of_lt_of_le hthr hq, hq⟩
          rw [hstep, if_pos hcond, hscore]
          exact ih _ es hacc' hcons he
            (fun q hq2 => hsub q (List.mem_cons_of_mem _ hq2))
            (some (oe, idx)) (calculateSimilarityPure e.node oe.node)
            (some ((idx, oe), calculateSimilarityPure e.node oe.node))
            (Or.inr ⟨oe, idx, calculateSimilarityPure e.node oe.node, rfl, rfl, rfl, hq⟩)
        · by_cases himp : bs < calculateSimilarityPure e.node oe.node
          · have hcond : bs < (calculateSimilarity m e oe).1 ∧
                thr ≤ (calculateSimilarity m e oe).1 := by
              rw [hscore]
              exact ⟨himp, hq⟩
            rw [hstep, if_pos hcond, hscore]
            dsimp only
            rw [if_pos himp]
            exact ih _ es hacc' hcons he
              (fun q hq2 => hsub q (List.mem_cons_of_mem _ hq2))
              (some (oe, idx)) (calculateSimilarityPure e.node oe.node)
              (some ((idx, oe), calculateSimilarityPure e.node oe.node))
              (Or.inr ⟨oe, idx, calculateSimilarityPure e.node oe.node, rfl, rfl, rfl, hq⟩)
          · have hcond : ¬(bs < (calculateSimilarity m e oe).1 ∧
                thr ≤ (calculateSimilarity m e oe).1) := by
              rw [hscore]
              rintro ⟨hlt, -⟩
              exact himp hlt
            rw [hstep, if_neg hcond]
            dsimp only
            rw [if_neg himp]
            exact ih _ es hacc' hcons he
              (fun q hq2 => hsub q (List.mem_cons_of_mem _ hq2))
              (some (oe0, i0)) bs (some ((i0, oe0), bs))
              (Or.inr ⟨oe0, i0, bs, rfl, rfl, rfl, hts⟩)
      · rw [if_neg (by simpa using hq)]
        have hcond : ¬(bs < (calculateSimilarity m e oe).1 ∧
            thr ≤ (calculateSimilarity m e oe).1) := by
          rw [hscore]
          rintro ⟨-, hts2⟩
          exact hq hts2
        rw [hstep, if_neg hcond]
        exact ih _ es hacc' hcons he
          (fun q hq2 => hsub q (List.mem_cons_of_mem _ hq2)) best bs acc hrel

/-- C2 (amended): for a positive threshold, each edited element's selection
step picks, among the baseline candidates not yet claimed, the
highest-scoring candidate whose score is at or above the threshold, ties
broken by earliest baseline index (and rejects every candidate scoring below
the threshold); with threshold 0 an exact-threshold pair scoring 0 is
rejected, because the code requires a strict improvement over the running
best score, which starts at 0. -/
theorem c2_greedy_selection_amended (thr : ℚ) (e : HElem) (used : List Nat)
    (cands : List (Nat × HElem)) (m : MState)
    (h0 : 0 < thr)
    (hacc : CacheAccurate m (e :: cands.map Prod.snd))
    (hcons : HandlesConsistent (e :: cands.map Prod.snd)) :
    (bestLoop thr e used cands m none 0).1 =
      specSelectBest thr e (cands.filter (fun p => p.1 ∉ used)) := by
  unfold specSelectBest
  exact bestLoop_spec_aux thr e used h0 cands m (e :: cands.map Prod.snd) hacc hcons
    (List.mem_cons_self _ _)
    (fun p hp => List.mem_cons_of_mem _ (List.mem_map_of_mem Prod.snd hp))
    none 0 none (Or.inl ⟨rfl, rfl, rfl⟩)

/-- Witness for C2: a concrete id-matching pair at threshold 1 is selected
exactly as the specification's selection rule dictates. -/
theorem c2_greedy_selection_amended_witness :
    (bestLoop 1 ⟨0, .elem "p" [("id", "x")] [.text "t"]⟩ []
        [(0, ⟨1, .elem "p" [("id", "x")] [.text "t"]⟩)] MState.empty none 0).1 =
      specSelectBest 1 ⟨0, .elem "p" [("id", "x")] [.text "t"]⟩
        ([(0, ⟨1, .elem "p" [("id", "x")] [.text "t"]⟩)].filter
          (fun p => p.1 ∉ ([] : List Nat))) :=
  c2_greedy_selection_amended 1 ⟨0, .elem "p" [("id", "x")] [.text "t"]⟩ []
    [(0, ⟨1, .elem "p" [("id", "x")] [.text "t"]⟩)] MState.empty
    (by decide) (fun e he v hv => Option.noConfusion hv) (by decide)

/-- Counterexample to C2 as stated: with `similarityThreshold = 0` (a value in
`[0, 1]`), a candidate pair scoring exactly the threshold is NOT accepted —
the pair is emitted unmatched, because the loop requires `score > best_score`
with `best_score` initialized to 0.0. -/
theorem c2_counterexample :
    calculateSimilarityPure (HNode.elem "p" [] []) (HNode.elem "div" [] []) = 0 ∧
    (match_elements 0 MState.empty [⟨0, .elem "p" [] []⟩] [⟨1, .elem "div" [] []⟩]).1 =
      [(some ⟨0, .elem "p" [] []⟩, none, 0), (none, some ⟨1, .elem "div" [] []⟩, 0)] := by
  have hidz : idSimilarity (HNode.elem "p" [] []) (HNode.elem "div" [] []) = 0 := by decide
  have htextz : textSimilarity (HNode.elem "p" [] []) (HNode.elem "div" [] []) = 0 := by
    unfold textSimilarity
    rw [if_pos (Or.inl (by decide))]
  have hstructz : structureSimilarity (HNode.elem "p" [] []) (HNode.elem "div" [] []) = 0 := by
    unfold structureSimilarity
    rw [if_pos (by decide : (HNode.elem "p" [] []).name ≠ (HNode.elem "div" [] []).name)]
  have hkey : hashKeyOf (HNode.elem "p" [] []) ≠ hashKeyOf (HNode.elem "div" [] []) := by decide
  have hpure : calculateSimilarityPure (HNode.elem "p" [] []) (HNode.elem "div" [] []) = 0 := by
    unfold calculateSimilarityPure
    dsimp only
    rw [if_neg (by rw [hidz]; norm_num), if_neg (by rw [if_neg hkey]; norm_num)]
    rw [hidz, htextz, hstructz, if_neg hkey]
    norm_num
  have hcache1 : getContentHash MState.empty ⟨0, .elem "p" [] []⟩ =
      (hashKeyOf (HNode.elem "p" [] []),
        ⟨[(0, hashKeyOf (HNode.elem "p" [] []))]⟩) := rfl
  have hcache2 : getContentHash (⟨[(0, hashKeyOf (HNode.elem "p" [] []))]⟩ : MState)
      ⟨1, .elem "div" [] []⟩ =
      (hashKeyOf (HNode.elem "div" [] []),
        ⟨[(1, hashKeyOf (HNode.elem "div" [] [])),
          (0, hashKeyOf (HNode.elem "p" [] []))]⟩) := rfl
  have hsim : calculateSimilarity MState.empty ⟨0, .elem "p" [] []⟩ ⟨1, .elem "div" [] []⟩ =
      (0, ⟨[(1, hashKeyOf (HNode.elem "div" [] [])),
            (0, hashKeyOf (HNode.elem "p" [] []))]⟩) := by
    unfold calculateSimilarity
    dsimp only
    rw [if_neg (by rw [hidz]; norm_num)]
    rw [hcache1]
    dsimp only
    rw [hcache2]
    dsimp only
    rw [if_neg hkey]
    rw [if_neg (by norm_num : ¬(0 : ℚ) = 1)]
    rw [hidz, htextz, hstructz]
    norm_num
  refine ⟨hpure, ?_⟩
  unfold match_elements
  dsimp only
  have henum : ([(⟨1, .elem "div" [] []⟩ : HElem)]).enum = [(0, ⟨1, .elem "div" [] []⟩)] := rfl
  rw [henum]
  have hbest : bestLoop 0 ⟨0, .elem "p" [] []⟩ [] [(0, ⟨1, .elem "div" [] []⟩)]
      MState.empty none 0 =
      ((none, 0), ⟨[(1, hashKeyOf (HNode.elem "div" [] [])),
        (0, hashKeyOf (HNode.elem "p" [] []))]⟩) := by
    rw [bestLoop, if_neg (by simp)]
    dsimp only
    rw [hsim]
    dsimp only
    rw [if_neg (by norm_num)]
    rfl
  have hloop : matchLoop 0 [(0, ⟨1, .elem "div" [] []⟩)] [⟨0, .elem "p" [] []⟩] []
      MState.empty =
      ([(some ⟨0, .elem "p" [] []⟩, none, 0)], [],
        (⟨[(1, hashKeyOf (HNode.elem "div" [] [])),
          (0, hashKeyOf (HNode.elem "p" [] []))]⟩ : MState)) := by
    rw [matchLoop]
    dsimp only
    rw [hbest]
    rfl
  rw [hloop]
  rfl
